import Mathlib

/-!
Shallow embedding of the Durak rule engines from
`open_spiel/games/durak/durak.{h,cc}` (base engine) and
`open_spiel/games/durak/durak_with_transfers.{h,cc}` (transfer variant).

Cards are the integers 0..35 (`suit = id / 9`, `rank = id % 9`).  The C++
table entries are `std::pair<int,int>` with `-1` as the "no defending card"
sentinel; they are embedded as `Nat × Option Nat` (`none` for `-1`).  The
C++ fields `trump_suit_`, `trump_card_` and `last_action_` keep their `-1`
sentinel and are embedded as `Int`.  Both engine classes hold the same
fields except that only the transfer variant has `last_action_`; a single
record with a `lastAction` field embeds both (the base engine's functions
never read or write it).  Returns of `±1.0` / `0.0` doubles are embedded
as the exact integers they denote.
-/

namespace Durak

/-- `kNumPlayers` from durak.h / durak_with_transfers.h. -/
abbrev kNumPlayers : Nat := 2

/-- `kNumCards` from durak.h / durak_with_transfers.h (9 ranks * 4 suits). -/
abbrev kNumCards : Nat := 36

/-- `kCardsPerPlayer` from durak.h / durak_with_transfers.h. -/
abbrev kCardsPerPlayer : Nat := 6

/-- `kExtraActionTakeCards = kNumCards` (36). -/
abbrev kExtraActionTakeCards : Nat := 36

/-- `kExtraActionFinishAttack = kNumCards + 1` (37). -/
abbrev kExtraActionFinishAttack : Nat := 37

/-- `kExtraActionFinishDefense = kNumCards + 2` (38). -/
abbrev kExtraActionFinishDefense : Nat := 38

/-- `kExtraActionTransfer = kNumCards + 3` (39, transfer variant only). -/
abbrev kExtraActionTransfer : Nat := 39

/-- `SuitOf` from durak.h: `card / 9`. -/
def SuitOf (card : Nat) : Nat := card / 9

/-- `RankOf` from durak.h: `card % 9`. -/
def RankOf (card : Nat) : Nat := card % 9

/-- `RoundPhase` from durak.h / durak_with_transfers.h. -/
inductive RoundPhase where
  | kChance
  | kAttack
  | kDefense
  | kAdditional
deriving DecidableEq, Repr

/-- The game-state fields shared by `DurakState` and
`DurakWithTransfersState` (the `lastAction` field exists only in the
transfer variant; the base engine leaves it untouched). -/
structure DurakState where
  deck : List Nat
  hand0 : List Nat
  hand1 : List Nat
  tableCards : List (Nat × Option Nat)
  discard : List Nat
  trumpSuit : Int
  trumpCard : Int
  cardsDealt : Nat
  deckPos : Nat
  attacker : Nat
  defender : Nat
  phase : RoundPhase
  roundStarter : Nat
  lastAction : Int
  gameOver : Bool
deriving DecidableEq, Repr

/-- `hands_[p]` for a player index `p ∈ {0, 1}` (the C++ array has exactly
two entries; any non-zero index selects hand 1). -/
def handOf (s : DurakState) (p : Nat) : List Nat :=
  if p = 0 then s.hand0 else s.hand1

/-- Write `hands_[p]`. -/
def setHand (s : DurakState) (p : Nat) (h : List Nat) : DurakState :=
  if p = 0 then { s with hand0 := h } else { s with hand1 := h }

/-- `IsChanceNode`: `phase_ == RoundPhase::kChance`. -/
def IsChanceNode (s : DurakState) : Prop :=
  s.phase = RoundPhase.kChance

instance (s : DurakState) : Decidable (IsChanceNode s) := by
  unfold IsChanceNode; infer_instance

/-- The player returned by `CurrentPlayer` in a non-terminal, non-chance
state: attacker for `kAttack`/`kAdditional`, defender for `kDefense`. -/
def currentTurnPlayer (s : DurakState) : Nat :=
  if s.phase = RoundPhase.kAttack ∨ s.phase = RoundPhase.kAdditional then
    s.attacker
  else s.defender

/-- `CanDefendCard` from durak.cc (identical in durak_with_transfers.cc):
same suit and higher rank, or trump over non-trump, or both trump with
higher rank. -/
def CanDefendCard (s : DurakState) (defense_card attack_card : Nat) : Bool :=
  let att_s := SuitOf attack_card
  let att_r := RankOf attack_card
  let def_s := SuitOf defense_card
  let def_r := RankOf defense_card
  if att_s = def_s ∧ att_r < def_r then true
  else if (def_s : Int) = s.trumpSuit ∧ (att_s : Int) ≠ s.trumpSuit then true
  else if (att_s : Int) = s.trumpSuit ∧ (def_s : Int) = s.trumpSuit ∧ att_r < def_r then
    true
  else false

/-- The scan inside `DecideFirstAttacker`: fold one player's hand,
tracking `(lowest_trump, who)`; `lowest_trump` is an `Int` card id with
`-1` meaning "none seen yet". -/
def lowestTrumpFold (ts : Int) (p : Nat) (acc : Int × Nat) (hand : List Nat) :
    Int × Nat :=
  hand.foldl
    (fun lw c =>
      if (SuitOf c : Int) = ts then
        if lw.1 < 0 ∨ (RankOf c : Int) < lw.1 % 9 then ((c : Int), p) else lw
      else lw)
    acc

/-- `DecideFirstAttacker` from durak.cc (identical in
durak_with_transfers.cc): scan hand 0 then hand 1 for the strictly
lowest-rank card of the trump suit; its holder attacks. -/
def DecideFirstAttacker (s : DurakState) : DurakState :=
  let r0 := lowestTrumpFold s.trumpSuit 0 (-1, 0) s.hand0
  let r1 := lowestTrumpFold s.trumpSuit 1 r0 s.hand1
  { s with attacker := r1.2, defender := 1 - r1.2 }

/-- `ApplyChanceAction` from durak.cc: deal `outcome` to player
`cards_dealt_ % 2` while `cards_dealt_ < 12`, else reveal `outcome` as the
trump card. -/
def ApplyChanceAction (s : DurakState) (outcome : Nat) : DurakState :=
  if s.cardsDealt < kCardsPerPlayer * kNumPlayers then
    let p := s.cardsDealt % kNumPlayers
    let s1 := setHand s p (handOf s p ++ [outcome])
    { s1 with deckPos := s1.deckPos + 1, cardsDealt := s1.cardsDealt + 1 }
  else
    let s1 := { s with trumpCard := (outcome : Int),
                       trumpSuit := (SuitOf outcome : Int) }
    let s2 := DecideFirstAttacker s1
    { s2 with phase := RoundPhase.kAttack, roundStarter := s2.attacker }

/-- `ApplyChanceAction` from durak_with_transfers.cc: identical except
that the reveal branch reads `deck_.back()` instead of `outcome`. -/
def ApplyChanceActionWT (s : DurakState) (outcome : Nat) : DurakState :=
  if s.cardsDealt < kCardsPerPlayer * kNumPlayers then
    let p := s.cardsDealt % kNumPlayers
    let s1 := setHand s p (handOf s p ++ [outcome])
    { s1 with deckPos := s1.deckPos + 1, cardsDealt := s1.cardsDealt + 1 }
  else
    let b := s.deck.getLastD 0
    let s1 := { s with trumpCard := (b : Int), trumpSuit := (SuitOf b : Int) }
    let s2 := DecideFirstAttacker s1
    { s2 with phase := RoundPhase.kAttack, roundStarter := s2.attacker }

/-- One conditional deal inside the `RefillHands` loop body: if player `p`
holds fewer than 6 cards and the deck is not exhausted, deal
`deck_[deck_pos_]` to `p`. -/
def dealOne (s : DurakState) (p : Nat) : DurakState :=
  if (handOf s p).length < kCardsPerPlayer ∧ s.deckPos < s.deck.length then
    let s1 := setHand s p (handOf s p ++ [s.deck.getD s.deckPos 0])
    { s1 with deckPos := s1.deckPos + 1 }
  else s

/-- One pass of the `RefillHands` loop body: deal (conditionally) to the
attacker, then to the defender. -/
def RefillPass (s : DurakState) : DurakState :=
  dealOne (dealOne s s.attacker) s.defender

/-- The `while` loop of `RefillHands`, with explicit fuel (each iteration
that recurses has dealt at least one card, so `deck_.size() + 1` steps of
fuel reproduce the loop exactly). -/
def RefillLoop : Nat → DurakState → DurakState
  | 0, s => s
  | Nat.succ fuel, s =>
    if s.deckPos < s.deck.length then
      if (handOf (RefillPass s) (RefillPass s).attacker).length < kCardsPerPlayer ∨
          (handOf (RefillPass s) (RefillPass s).defender).length < kCardsPerPlayer then
        RefillLoop fuel (RefillPass s)
      else RefillPass s
    else s

/-- `RefillHands` from durak.cc (identical in durak_with_transfers.cc):
deal to attacker then defender, repeating until both hold 6 cards or the
deck is exhausted. -/
def RefillHands (s : DurakState) : DurakState :=
  RefillLoop (s.deck.length + 1) s

/-- `CheckGameOver` from durak.cc (identical in
durak_with_transfers.cc). -/
def CheckGameOver (s : DurakState) : DurakState :=
  if (s.hand0 = [] ∨ s.hand1 = []) ∧ s.deck.length ≤ s.deckPos then
    { s with gameOver := true }
  else if s.hand0 = [] ∧ s.hand1 = [] then
    if s.deck.length ≤ s.deckPos then { s with gameOver := true }
    else RefillHands s
  else s

/-- The cards a table entry contributes, in push order: the attacking card
then the defending card if present. -/
def tableFlat (t : List (Nat × Option Nat)) : List Nat :=
  t.flatMap (fun pr => pr.1 :: pr.2.toList)

/-- `DefenderTakesCards` from durak.cc (identical in
durak_with_transfers.cc): the defender picks up every table card, the
table is cleared, phase returns to `kAttack` and hands are refilled. -/
def DefenderTakesCards (s : DurakState) : DurakState :=
  let s1 := setHand s s.defender (handOf s s.defender ++ tableFlat s.tableCards)
  RefillHands { s1 with tableCards := [], phase := RoundPhase.kAttack }

/-- `AttackerFinishesAttack` from durak.cc (identical in
durak_with_transfers.cc). -/
def AttackerFinishesAttack (s : DurakState) : DurakState :=
  if s.tableCards = [] then s else { s with phase := RoundPhase.kDefense }

/-- `DefenderFinishesDefense` from durak.cc (identical in
durak_with_transfers.cc): with an uncovered entry it behaves as
`DefenderTakesCards`; otherwise table cards go to the discard, roles swap,
hands refill and phase returns to `kAttack`. -/
def DefenderFinishesDefense (s : DurakState) : DurakState :=
  if s.tableCards.any (fun pr => pr.2.isNone) then DefenderTakesCards s
  else
    let s1 := { s with discard := s.discard ++ tableFlat s.tableCards,
                       tableCards := [],
                       attacker := s.defender, defender := s.attacker }
    { RefillHands s1 with phase := RoundPhase.kAttack }

/-- `DefenderTransfers` from durak_with_transfers.cc: swap roles and move
to `kAdditional`; the table is untouched. -/
def DefenderTransfers (s : DurakState) : DurakState :=
  { s with attacker := s.defender, defender := s.attacker,
           phase := RoundPhase.kAdditional }

/-- The "earliest uncovered" linear scan used by `DoApplyAction` and
`LegalActions`. -/
def findUncoveredIdx : List (Nat × Option Nat) → Option Nat
  | [] => none
  | pr :: rest =>
    if pr.2.isNone then some 0 else (findUncoveredIdx rest).map (· + 1)

/-- The attacker's card-play branch of `DoApplyAction`: erase the card
from the hand, append an uncovered table entry, stay in `kAttack`. -/
def placeAttack (s : DurakState) (player : Nat) (move : Nat) : DurakState :=
  let s1 := setHand s player ((handOf s player).erase move)
  { s1 with tableCards := s1.tableCards ++ [(move, none)],
            phase := RoundPhase.kAttack }

/-- The defender's card-play branch of `DoApplyAction`: cover the earliest
uncovered entry when `CanDefendCard` allows it; if every entry is then
covered, move to `kAdditional`. -/
def coverEarliest (s : DurakState) (player : Nat) (move : Nat) : DurakState :=
  match findUncoveredIdx s.tableCards with
  | none => s
  | some i =>
    let att_card := (s.tableCards.getD i (0, none)).1
    if CanDefendCard s move att_card then
      let s1 := setHand s player ((handOf s player).erase move)
      let t := s1.tableCards.set i (att_card, some move)
      if t.all (fun pr => pr.2.isSome) then
        { s1 with tableCards := t, phase := RoundPhase.kAdditional }
      else { s1 with tableCards := t }
    else s

/-- `DurakState::DoApplyAction` from durak.cc. -/
def DoApplyAction (s : DurakState) (move : Nat) : DurakState :=
  if IsChanceNode s then CheckGameOver (ApplyChanceAction s move)
  else if s.gameOver then s
  else if kNumCards ≤ move then
    let s1 :=
      if move = kExtraActionTakeCards then DefenderTakesCards s
      else if move = kExtraActionFinishAttack then AttackerFinishesAttack s
      else if move = kExtraActionFinishDefense then DefenderFinishesDefense s
      else s
    CheckGameOver s1
  else
    let player := currentTurnPlayer s
    if move ∈ handOf s player then
      if (s.phase = RoundPhase.kAttack ∨ s.phase = RoundPhase.kAdditional) ∧
          player = s.attacker then
        CheckGameOver (placeAttack s player move)
      else if s.phase = RoundPhase.kDefense ∧ player = s.defender then
        CheckGameOver (coverEarliest s player move)
      else CheckGameOver s
    else s

/-- `DurakWithTransfersState::DoApplyAction` from durak_with_transfers.cc:
records the move in `last_action_` first, handles `kExtraActionTransfer`,
and dispatches the extra actions by equality instead of `move >= 36`. -/
def DoApplyActionWT (s : DurakState) (move : Nat) : DurakState :=
  let s0 := { s with lastAction := (move : Int) }
  if IsChanceNode s0 then CheckGameOver (ApplyChanceActionWT s0 move)
  else if s0.gameOver then s0
  else if move = kExtraActionTransfer then CheckGameOver (DefenderTransfers s0)
  else if move = kExtraActionTakeCards then CheckGameOver (DefenderTakesCards s0)
  else if move = kExtraActionFinishAttack then
    CheckGameOver (AttackerFinishesAttack s0)
  else if move = kExtraActionFinishDefense then
    CheckGameOver (DefenderFinishesDefense s0)
  else
    let player := currentTurnPlayer s0
    if move ∈ handOf s0 player then
      if (s0.phase = RoundPhase.kAttack ∨ s0.phase = RoundPhase.kAdditional) ∧
          player = s0.attacker then
        CheckGameOver (placeAttack s0 player move)
      else if s0.phase = RoundPhase.kDefense ∧ player = s0.defender then
        CheckGameOver (coverEarliest s0 player move)
      else CheckGameOver s0
    else s0

/-- `ChanceOutcomes` (both engines), keeping only the action ids: the
forced next deck card during dealing, then the bottom card for the trump
reveal while `trump_card_ < 0`. -/
def chanceOutcomeActions (s : DurakState) : List Nat :=
  if s.cardsDealt < kCardsPerPlayer * kNumPlayers then [s.deck.getD s.deckPos 0]
  else if s.trumpCard < 0 then [s.deck.getLastD 0]
  else []

/-- The rank multiset present on the table (attacking and, where present,
defending cards), as gathered by `LegalActions`. -/
def ranksOnTable (t : List (Nat × Option Nat)) : List Nat :=
  t.flatMap (fun pr => RankOf pr.1 :: (pr.2.map RankOf).toList)

/-- `DurakState::LegalActions` from durak.cc. -/
def LegalActions (s : DurakState) : List Nat :=
  if s.gameOver then []
  else if IsChanceNode s then chanceOutcomeActions s
  else
    let player := currentTurnPlayer s
    let hand := handOf s player
    let moves :=
      if (s.phase = RoundPhase.kAttack ∨ s.phase = RoundPhase.kAdditional) ∧
          player = s.attacker then
        (if s.tableCards = [] then hand
         else hand.filter (fun c => RankOf c ∈ ranksOnTable s.tableCards)) ++
        (if s.tableCards = [] then [] else [kExtraActionFinishAttack])
      else if s.phase = RoundPhase.kDefense ∧ player = s.defender then
        if s.tableCards.any (fun pr => pr.2.isNone) then
          kExtraActionTakeCards ::
          (match findUncoveredIdx s.tableCards with
           | none => []
           | some i =>
             hand.filter
               (fun c => CanDefendCard s c (s.tableCards.getD i (0, none)).1))
        else [kExtraActionFinishDefense]
      else []
    moves.insertionSort (· ≤ ·)

/-- `DurakWithTransfersState::LegalActions` from durak_with_transfers.cc:
adds the table-size / non-empty-defender-hand gate on attack cards, the
`last_action_ != TRANSFER` gate on `FINISH_ATTACK`, and the `TRANSFER`
action. -/
def LegalActionsWT (s : DurakState) : List Nat :=
  if s.gameOver then []
  else if IsChanceNode s then chanceOutcomeActions s
  else
    let player := currentTurnPlayer s
    let hand := handOf s player
    let moves :=
      if (s.phase = RoundPhase.kAttack ∨ s.phase = RoundPhase.kAdditional) ∧
          player = s.attacker then
        (if s.tableCards = [] then hand
         else if s.tableCards.length < kCardsPerPlayer ∧
             handOf s s.defender ≠ [] then
           hand.filter (fun c => RankOf c ∈ ranksOnTable s.tableCards)
         else []) ++
        (if s.tableCards ≠ [] ∧ s.lastAction ≠ (kExtraActionTransfer : Int) then
          [kExtraActionFinishAttack]
         else [])
      else if s.phase = RoundPhase.kDefense ∧ player = s.defender then
        if s.tableCards.any (fun pr => pr.2.isNone) then
          (kExtraActionTakeCards ::
           (if ¬ s.tableCards.any (fun pr => pr.2.isSome) ∧
               hand.any
                 (fun c => s.tableCards.any (fun pr => RankOf pr.1 = RankOf c)) then
             [kExtraActionTransfer]
           else [])) ++
          (match findUncoveredIdx s.tableCards with
           | none => []
           | some i =>
             hand.filter
               (fun c => CanDefendCard s c (s.tableCards.getD i (0, none)).1))
        else [kExtraActionFinishDefense]
      else []
    moves.insertionSort (· ≤ ·)

/-- `Returns` from durak.cc (identical in durak_with_transfers.cc), with
the `double` payoffs embedded as the exact integers they denote.  The
branch structure mirrors the `players_with_cards` analysis: exactly one
player holding cards is the loser; with no cards anywhere and an
exhausted deck the attacker wins. -/
def Returns (s : DurakState) : Int × Int :=
  if s.gameOver = false then (0, 0)
  else if s.hand0 ≠ [] ∧ s.hand1 ≠ [] then (0, 0)
  else if s.hand0 ≠ [] then (-1, 1)
  else if s.hand1 ≠ [] then (1, -1)
  else if s.deck.length ≤ s.deckPos then
    if s.attacker = 0 then (1, -1) else (-1, 1)
  else (0, 0)

/-- The field state every constructor establishes after building the
deck: empty hands, table and discard, sentinels `-1`, cursor 0, player 0
attacking, chance phase. -/
def InitFields (deck : List Nat) : DurakState :=
  { deck := deck
    hand0 := []
    hand1 := []
    tableCards := []
    discard := []
    trumpSuit := -1
    trumpCard := -1
    cardsDealt := 0
    deckPos := 0
    attacker := 0
    defender := 1
    phase := RoundPhase.kChance
    roundStarter := 0
    lastAction := -1
    gameOver := false }

/-- `DurakState::DurakState` from durak.cc.  The base engine shuffles
0..35 with `std::mt19937(std::random_device()())`; the entropy source is
outside the program, so the shuffled permutation is the parameter. -/
def DurakStateInit (deck : List Nat) : DurakState :=
  InitFields deck

/-- `std::mt19937` state: 624 32-bit words and a read index. -/
structure MT where
  state : List Nat
  idx : Nat
deriving Repr

/-- The mt19937 seeding recurrence:
`x_i = 1812433253 * (x_(i-1) xor (x_(i-1) >> 30)) + i  (mod 2^32)`. -/
def mtNextSeed (prev i : Nat) : Nat :=
  (1812433253 * (prev ^^^ (prev >>> 30)) + i) % 2 ^ 32

/-- The first `n` words of the seeded mt19937 state, starting from the
word `cur` at index `i - 1`. -/
def mtSeedList : Nat → Nat → Nat → List Nat
  | 0, _, _ => []
  | Nat.succ k, cur, i => cur :: mtSeedList k (mtNextSeed cur i) (i + 1)

/-- One in-place step of the mt19937 twist. -/
def mtTwistStep (mt : List Nat) (i : Nat) : List Nat :=
  let x := (mt.getD i 0 &&& 0x80000000) + (mt.getD ((i + 1) % 624) 0 &&& 0x7fffffff)
  let xA := if x % 2 = 1 then (x >>> 1) ^^^ 0x9908B0DF else x >>> 1
  mt.set i ((mt.getD ((i + 397) % 624) 0) ^^^ xA)

/-- The mt19937 output tempering. -/
def mtTemper (y0 : Nat) : Nat :=
  let y1 := y0 ^^^ (y0 >>> 11)
  let y2 := y1 ^^^ ((y1 <<< 7) &&& 0x9D2C5680)
  let y3 := y2 ^^^ ((y2 <<< 15) &&& 0xEFC60000)
  y3 ^^^ (y3 >>> 18)

/-- `(*rng)()`: twist when the index is exhausted, then temper the next
word. -/
def mtNext (g : MT) : Nat × MT :=
  let g1 := if 624 ≤ g.idx then
    MT.mk ((List.range 624).foldl mtTwistStep g.state) 0
  else g
  (mtTemper (g1.state.getD g1.idx 0), MT.mk g1.state (g1.idx + 1))

/-- `std::mt19937 rng(rng_seed_)`. -/
def mtInit (seed : Nat) : MT :=
  MT.mk (mtSeedList 624 (seed % 2 ^ 32) 1) 624

/-- One iteration of the `ShuffleDeck` loop from durak_with_transfers.cc:
`j = i + (*rng)() % (end - i)` followed by `std::swap(deck[i], deck[j])`. -/
def shuffleStep (e : Nat) (acc : MT × List Nat) (i : Nat) : MT × List Nat :=
  let (v, r) := mtNext acc.1
  let d := acc.2
  let j := i + v % (e - i)
  (r, (d.set i (d.getD j 0)).set j (d.getD i 0))

/-- `ShuffleDeck` from durak_with_transfers.cc: a Fisher-Yates pass over
`[b, e)` driven by the supplied generator. -/
def ShuffleDeck (rng : MT) (deck : List Nat) (b e : Nat) : MT × List Nat :=
  (List.range' b (e - 1 - b)).foldl (shuffleStep e) (rng, deck)

/-- `DurakWithTransfersState::DurakWithTransfersState` from
durak_with_transfers.cc: with an empty `init_deck` parameter the deck is
0..35 shuffled by `ShuffleDeck` seeded with `rng_seed`; otherwise the
comma-separated string is parsed into 36 integers, with no validation of
any kind.  The parameter here is the parsed integer list. -/
def DurakWithTransfersStateInit (init_deck : List Nat) (rng_seed : Nat) :
    DurakState :=
  if init_deck = [] then
    InitFields (ShuffleDeck (mtInit rng_seed) (List.range kNumCards) 0 kNumCards).2
  else InitFields init_deck

/-!  Reachability.  `State::ApplyAction` applies an action that the host
framework takes from `LegalActions()`; a state is reachable when some
sequence of legal actions (the forced chance outcomes included, as
`LegalActions` returns them at chance nodes) leads to it from the
freshly constructed state. -/

/-- Apply one action of the base engine, provided it is legal. -/
def stepLegal (s : DurakState) (a : Nat) : Option DurakState :=
  if a ∈ LegalActions s then some (DoApplyAction s a) else none

/-- Apply a list of actions of the base engine, each checked legal. -/
def playLegal : DurakState → List Nat → Option DurakState
  | s, [] => some s
  | s, a :: as =>
    match stepLegal s a with
    | some s1 => playLegal s1 as
    | none => none

/-- Apply one action of the transfer variant, provided it is legal. -/
def stepLegalWT (s : DurakState) (a : Nat) : Option DurakState :=
  if a ∈ LegalActionsWT s then some (DoApplyActionWT s a) else none

/-- Apply a list of actions of the transfer variant, each checked legal. -/
def playLegalWT : DurakState → List Nat → Option DurakState
  | s, [] => some s
  | s, a :: as =>
    match stepLegalWT s a with
    | some s1 => playLegalWT s1 as
    | none => none

/-- Base-engine reachability from the initial state built over `deck`. -/
def ReachableFrom (deck : List Nat) (s : DurakState) : Prop :=
  ∃ as : List Nat, playLegal (DurakStateInit deck) as = some s

/-- Transfer-variant reachability from the initial state built over the
supplied (non-empty) `init_deck`. -/
def ReachableFromWT (deck : List Nat) (s : DurakState) : Prop :=
  ∃ as : List Nat, playLegalWT (DurakWithTransfersStateInit deck 0) as = some s

/-- The multiset union of the §3 conservation invariant: remaining deck
cards, both hands, both sides of the table, and the discard pile. -/
def cardMultiset (s : DurakState) : Multiset Nat :=
  (↑(s.deck.drop s.deckPos) + ↑s.hand0 + ↑s.hand1 +
    ↑(tableFlat s.tableCards) + ↑s.discard : Multiset Nat)

/-- Every card identifier 0..35 appears exactly once across the zones. -/
def ConservesCards (s : DurakState) : Prop :=
  cardMultiset s = (↑(List.range kNumCards) : Multiset Nat)

instance (s : DurakState) : Decidable (ConservesCards s) := by
  unfold ConservesCards; infer_instance

/-- The inductive invariant: conservation, a 36-card deck, and during the
dealing phase a cursor that tracks the deal counter. -/
def Inv (s : DurakState) : Prop :=
  ConservesCards s ∧ s.deck.length = kNumCards ∧
    (s.phase = RoundPhase.kChance →
      s.deckPos = s.cardsDealt ∧ s.cardsDealt ≤ kCardsPerPlayer * kNumPlayers)

/-! Conservation of the card multiset through every operation. -/

theorem tableFlat_append (t u : List (Nat × Option Nat)) :
    tableFlat (t ++ u) = tableFlat t ++ tableFlat u := by
  simp [tableFlat]

theorem coe_cons_eq (a : Nat) (l : List Nat) :
    (↑(a :: l) : Multiset Nat) = {a} + ↑l := by
  rw [Multiset.singleton_add, Multiset.cons_coe]

theorem coe_erase_add (m : Nat) (l : List Nat) (h : m ∈ l) :
    ({m} + ↑(l.erase m) : Multiset Nat) = ↑l := by
  rw [Multiset.singleton_add, Multiset.cons_coe, Multiset.coe_eq_coe]
  exact (List.perm_cons_erase h).symm

theorem drop_deal (l : List Nat) (n : Nat) (h : n < l.length) :
    l.drop n = l.getD n 0 :: l.drop (n + 1) := by
  rw [List.getD_eq_getElem _ _ h]
  exact List.drop_eq_getElem_cons h

theorem cardMultiset_dealOne (s : DurakState) (p : Nat) :
    cardMultiset (dealOne s p) = cardMultiset s := by
  unfold dealOne
  split
  · rename_i h
    rw [show cardMultiset s =
        ↑(s.deck.drop s.deckPos) + ↑s.hand0 + ↑s.hand1 +
          ↑(tableFlat s.tableCards) + ↑s.discard from rfl,
      drop_deal s.deck s.deckPos h.2]
    by_cases hp : p = 0 <;>
      simp only [setHand, handOf, hp, if_pos, if_neg, if_true, if_false,
        reduceIte, cardMultiset, coe_cons_eq, ← Multiset.coe_add,
        Multiset.coe_singleton] <;>
      abel
  · rfl

theorem dealOne_deck (s : DurakState) (p : Nat) : (dealOne s p).deck = s.deck := by
  unfold dealOne setHand
  split
  · by_cases hp : p = 0 <;> simp [hp]
  · rfl

theorem dealOne_frame (s : DurakState) (p : Nat) :
    (dealOne s p).phase = s.phase ∧ (dealOne s p).attacker = s.attacker ∧
      (dealOne s p).defender = s.defender ∧
      (dealOne s p).cardsDealt = s.cardsDealt ∧
      (dealOne s p).tableCards = s.tableCards ∧
      (dealOne s p).discard = s.discard ∧
      (dealOne s p).gameOver = s.gameOver ∧
      (dealOne s p).trumpSuit = s.trumpSuit ∧
      (dealOne s p).trumpCard = s.trumpCard ∧
      (dealOne s p).lastAction = s.lastAction ∧
      (dealOne s p).roundStarter = s.roundStarter := by
  unfold dealOne setHand
  split
  · by_cases hp : p = 0 <;> simp [hp]
  · simp

theorem cardMultiset_RefillPass (s : DurakState) :
    cardMultiset (RefillPass s) = cardMultiset s := by
  unfold RefillPass
  rw [cardMultiset_dealOne, cardMultiset_dealOne]

theorem RefillPass_deck (s : DurakState) : (RefillPass s).deck = s.deck := by
  unfold RefillPass
  rw [dealOne_deck, dealOne_deck]

theorem RefillPass_frame (s : DurakState) :
    (RefillPass s).phase = s.phase ∧ (RefillPass s).attacker = s.attacker ∧
      (RefillPass s).defender = s.defender ∧
      (RefillPass s).cardsDealt = s.cardsDealt ∧
      (RefillPass s).tableCards = s.tableCards ∧
      (RefillPass s).discard = s.discard ∧
      (RefillPass s).gameOver = s.gameOver ∧
      (RefillPass s).trumpSuit = s.trumpSuit ∧
      (RefillPass s).trumpCard = s.trumpCard ∧
      (RefillPass s).lastAction = s.lastAction ∧
      (RefillPass s).roundStarter = s.roundStarter := by
  unfold RefillPass
  have h1 := dealOne_frame s s.attacker
  have h2 := dealOne_frame (dealOne s s.attacker) s.defender
  exact ⟨h2.1.trans h1.1, h2.2.1.trans h1.2.1, h2.2.2.1.trans h1.2.2.1,
    h2.2.2.2.1.trans h1.2.2.2.1, h2.2.2.2.2.1.trans h1.2.2.2.2.1,
    h2.2.2.2.2.2.1.trans h1.2.2.2.2.2.1,
    h2.2.2.2.2.2.2.1.trans h1.2.2.2.2.2.2.1,
    h2.2.2.2.2.2.2.2.1.trans h1.2.2.2.2.2.2.2.1,
    h2.2.2.2.2.2.2.2.2.1.trans h1.2.2.2.2.2.2.2.2.1,
    h2.2.2.2.2.2.2.2.2.2.1.trans h1.2.2.2.2.2.2.2.2.2.1,
    h2.2.2.2.2.2.2.2.2.2.2.trans h1.2.2.2.2.2.2.2.2.2.2⟩

theorem RefillLoop_deck (f : Nat) :
    ∀ s : DurakState, (RefillLoop f s).deck = s.deck := by
  induction f with
  | zero => intro s; rfl
  | succ n ih =>
    intro s
    unfold RefillLoop
    split
    · split
      · rw [ih, RefillPass_deck]
      · exact RefillPass_deck s
    · rfl

theorem RefillLoop_frame (f : Nat) :
    ∀ s : DurakState, (RefillLoop f s).phase = s.phase ∧
      (RefillLoop f s).attacker = s.attacker ∧
      (RefillLoop f s).defender = s.defender ∧
      (RefillLoop f s).cardsDealt = s.cardsDealt ∧
      (RefillLoop f s).tableCards = s.tableCards ∧
      (RefillLoop f s).discard = s.discard ∧
      (RefillLoop f s).gameOver = s.gameOver ∧
      (RefillLoop f s).trumpSuit = s.trumpSuit ∧
      (RefillLoop f s).trumpCard = s.trumpCard ∧
      (RefillLoop f s).lastAction = s.lastAction ∧
      (RefillLoop f s).roundStarter = s.roundStarter := by
  induction f with
  | zero => intro s; exact ⟨rfl, rfl, rfl, rfl, rfl, rfl, rfl, rfl, rfl, rfl, rfl⟩
  | succ n ih =>
    intro s
    unfold RefillLoop
    split
    · split
      · have h1 := RefillPass_frame s
        have h3 := ih (RefillPass s)
        exact ⟨h3.1.trans h1.1, h3.2.1.trans h1.2.1, h3.2.2.1.trans h1.2.2.1,
          h3.2.2.2.1.trans h1.2.2.2.1, h3.2.2.2.2.1.trans h1.2.2.2.2.1,
          h3.2.2.2.2.2.1.trans h1.2.2.2.2.2.1,
          h3.2.2.2.2.2.2.1.trans h1.2.2.2.2.2.2.1,
          h3.2.2.2.2.2.2.2.1.trans h1.2.2.2.2.2.2.2.1,
          h3.2.2.2.2.2.2.2.2.1.trans h1.2.2.2.2.2.2.2.2.1,
          h3.2.2.2.2.2.2.2.2.2.1.trans h1.2.2.2.2.2.2.2.2.2.1,
          h3.2.2.2.2.2.2.2.2.2.2.trans h1.2.2.2.2.2.2.2.2.2.2⟩
      · exact RefillPass_frame s
    · exact ⟨rfl, rfl, rfl, rfl, rfl, rfl, rfl, rfl, rfl, rfl, rfl⟩

theorem cardMultiset_RefillLoop (f : Nat) :
    ∀ s : DurakState, cardMultiset (RefillLoop f s) = cardMultiset s := by
  induction f with
  | zero => intro s; rfl
  | succ n ih =>
    intro s
    unfold RefillLoop
    split
    · split
      · rw [ih, cardMultiset_RefillPass]
      · exact cardMultiset_RefillPass s
    · rfl

theorem cardMultiset_RefillHands (s : DurakState) :
    cardMultiset (RefillHands s) = cardMultiset s :=
  cardMultiset_RefillLoop _ s

theorem RefillHands_deck (s : DurakState) : (RefillHands s).deck = s.deck :=
  RefillLoop_deck _ s

theorem RefillHands_phase (s : DurakState) : (RefillHands s).phase = s.phase :=
  (RefillLoop_frame _ s).1

theorem cardMultiset_CheckGameOver (s : DurakState) :
    cardMultiset (CheckGameOver s) = cardMultiset s := by
  unfold CheckGameOver
  split
  · rfl
  · split
    · split
      · rfl
      · exact cardMultiset_RefillHands s
    · rfl

theorem CheckGameOver_deck (s : DurakState) : (CheckGameOver s).deck = s.deck := by
  unfold CheckGameOver
  split
  · rfl
  · split
    · split
      · rfl
      · exact RefillHands_deck s
    · rfl

theorem CheckGameOver_phase (s : DurakState) :
    (CheckGameOver s).phase = s.phase := by
  unfold CheckGameOver
  split
  · rfl
  · split
    · split
      · rfl
      · exact RefillHands_phase s
    · rfl

theorem CheckGameOver_id (s : DurakState)
    (h1 : ¬ ((s.hand0 = [] ∨ s.hand1 = []) ∧ s.deck.length ≤ s.deckPos))
    (h2 : ¬ (s.hand0 = [] ∧ s.hand1 = [])) : CheckGameOver s = s := by
  unfold CheckGameOver
  rw [if_neg h1, if_neg h2]

theorem cardMultiset_DefenderTakesCards (s : DurakState) :
    cardMultiset (DefenderTakesCards s) = cardMultiset s := by
  unfold DefenderTakesCards
  rw [cardMultiset_RefillHands]
  by_cases hp : s.defender = 0 <;>
    simp only [setHand, handOf, hp, if_pos, if_neg, if_true, if_false,
      reduceIte, cardMultiset, tableFlat, List.flatMap_nil, ← Multiset.coe_add,
      Multiset.coe_nil] <;>
    abel

theorem DefenderTakesCards_deck (s : DurakState) :
    (DefenderTakesCards s).deck = s.deck := by
  unfold DefenderTakesCards
  rw [RefillHands_deck]
  by_cases hp : s.defender = 0 <;> simp [setHand, hp]

theorem DefenderTakesCards_phase (s : DurakState) :
    (DefenderTakesCards s).phase = RoundPhase.kAttack := by
  unfold DefenderTakesCards
  rw [RefillHands_phase]

theorem cardMultiset_AttackerFinishesAttack (s : DurakState) :
    cardMultiset (AttackerFinishesAttack s) = cardMultiset s := by
  unfold AttackerFinishesAttack
  split <;> rfl

theorem AttackerFinishesAttack_deck (s : DurakState) :
    (AttackerFinishesAttack s).deck = s.deck := by
  unfold AttackerFinishesAttack
  split <;> rfl

theorem AttackerFinishesAttack_phase (s : DurakState) :
    (AttackerFinishesAttack s).phase = s.phase ∨
      (AttackerFinishesAttack s).phase = RoundPhase.kDefense := by
  unfold AttackerFinishesAttack
  split
  · exact Or.inl rfl
  · exact Or.inr rfl

theorem cardMultiset_DefenderFinishesDefense (s : DurakState) :
    cardMultiset (DefenderFinishesDefense s) = cardMultiset s := by
  unfold DefenderFinishesDefense
  split
  · exact cardMultiset_DefenderTakesCards s
  · show cardMultiset (RefillHands _) = _
    rw [cardMultiset_RefillHands]
    simp only [cardMultiset, tableFlat, List.flatMap_nil, ← Multiset.coe_add,
      Multiset.coe_nil]
    abel

theorem DefenderFinishesDefense_deck (s : DurakState) :
    (DefenderFinishesDefense s).deck = s.deck := by
  unfold DefenderFinishesDefense
  split
  · exact DefenderTakesCards_deck s
  · show (RefillHands _).deck = _
    rw [RefillHands_deck]

theorem DefenderFinishesDefense_phase (s : DurakState) :
    (DefenderFinishesDefense s).phase = RoundPhase.kAttack := by
  unfold DefenderFinishesDefense
  split
  · exact DefenderTakesCards_phase s
  · rfl

theorem cardMultiset_DefenderTransfers (s : DurakState) :
    cardMultiset (DefenderTransfers s) = cardMultiset s := rfl

theorem cardMultiset_placeAttack (s : DurakState) (p m : Nat)
    (h : m ∈ handOf s p) : cardMultiset (placeAttack s p m) = cardMultiset s := by
  unfold placeAttack
  rw [show cardMultiset s =
      ↑(s.deck.drop s.deckPos) + ↑s.hand0 + ↑s.hand1 +
        ↑(tableFlat s.tableCards) + ↑s.discard from rfl]
  unfold handOf at h
  by_cases hp : p = 0
  · rw [if_pos hp] at h
    rw [← coe_erase_add m s.hand0 h]
    simp only [setHand, handOf, hp, if_true, if_false, reduceIte, cardMultiset,
      tableFlat_append, ← Multiset.coe_add]
    rw [show tableFlat [(m, none)] = [m] from rfl]
    simp only [Multiset.coe_singleton]
    abel
  · rw [if_neg hp] at h
    rw [← coe_erase_add m s.hand1 h]
    simp only [setHand, handOf, hp, if_true, if_false, reduceIte, cardMultiset,
      tableFlat_append, ← Multiset.coe_add]
    rw [show tableFlat [(m, none)] = [m] from rfl]
    simp only [Multiset.coe_singleton]
    abel

theorem findUncoveredIdx_spec :
    ∀ (t : List (Nat × Option Nat)) (i : Nat), findUncoveredIdx t = some i →
      i < t.length ∧ (t.getD i (0, none)).2 = none := by
  intro t
  induction t with
  | nil => intro i h; simp [findUncoveredIdx] at h
  | cons pr rest ih =>
    intro i h
    unfold findUncoveredIdx at h
    by_cases hn : pr.2.isNone
    · rw [if_pos hn] at h
      cases h
      exact ⟨Nat.succ_pos _, Option.isNone_iff_eq_none.mp hn⟩
    · rw [if_neg hn] at h
      cases hrec : findUncoveredIdx rest with
      | none => rw [hrec] at h; simp at h
      | some k =>
        rw [hrec] at h
        simp at h
        obtain ⟨hk, hnone⟩ := ih k hrec
        subst h
        exact ⟨Nat.succ_lt_succ hk, hnone⟩

theorem tableFlat_set_cover :
    ∀ (t : List (Nat × Option Nat)) (i m : Nat), i < t.length →
      (t.getD i (0, none)).2 = none →
      (↑(tableFlat (t.set i ((t.getD i (0, none)).1, some m))) : Multiset Nat) =
        {m} + ↑(tableFlat t) := by
  intro t
  induction t with
  | nil => intro i m h _; simp at h
  | cons pr rest ih =>
    intro i m hlen hnone
    have hflatcons : ∀ (q : Nat × Option Nat) (u : List (Nat × Option Nat)),
        tableFlat (q :: u) = (q.1 :: q.2.toList) ++ tableFlat u := by
      intro q u; simp [tableFlat]
    cases i with
    | zero =>
      simp only [List.getD_cons_zero] at hnone ⊢
      rw [List.set_cons_zero, hflatcons, hflatcons, hnone]
      rw [show (((pr.1, some m) : Nat × Option Nat).1 ::
        ((pr.1, some m) : Nat × Option Nat).2.toList) = [pr.1, m] from rfl]
      rw [show (pr.1 :: (none : Option Nat).toList) = [pr.1] from rfl,
        ← Multiset.coe_add, ← Multiset.coe_add]
      rw [show ([pr.1, m] : List Nat) = [pr.1] ++ [m] from rfl, ← Multiset.coe_add]
      simp only [Multiset.coe_singleton]
      abel
    | succ k =>
      simp only [List.getD_cons_succ] at hnone ⊢
      rw [List.set_cons_succ, hflatcons, hflatcons, ← Multiset.coe_add,
        ← Multiset.coe_add, ih k m (Nat.lt_of_succ_lt_succ hlen) hnone]
      abel

theorem cardMultiset_coverEarliest (s : DurakState) (p m : Nat)
    (h : m ∈ handOf s p) : cardMultiset (coverEarliest s p m) = cardMultiset s := by
  unfold coverEarliest
  cases hidx : findUncoveredIdx s.tableCards with
  | none => rfl
  | some i =>
    obtain ⟨hlt, hnone⟩ := findUncoveredIdx_spec s.tableCards i hidx
    simp only
    split
    · have hflat := tableFlat_set_cover s.tableCards i m hlt hnone
      rw [show cardMultiset s =
          ↑(s.deck.drop s.deckPos) + ↑s.hand0 + ↑s.hand1 +
            ↑(tableFlat s.tableCards) + ↑s.discard from rfl]
      unfold handOf at h
      by_cases hp : p = 0
      · rw [if_pos hp] at h
        rw [← coe_erase_add m s.hand0 h]
        split <;>
        · simp only [setHand, handOf, hp, if_true, if_false, reduceIte,
            cardMultiset]
          rw [hflat]
          abel
      · rw [if_neg hp] at h
        rw [← coe_erase_add m s.hand1 h]
        split <;>
        · simp only [setHand, handOf, hp, if_true, if_false, reduceIte,
            cardMultiset]
          rw [hflat]
          abel
    · rfl

theorem placeAttack_deck (s : DurakState) (p m : Nat) :
    (placeAttack s p m).deck = s.deck := by
  unfold placeAttack setHand
  by_cases hp : p = 0 <;> simp [hp]

theorem placeAttack_phase (s : DurakState) (p m : Nat) :
    (placeAttack s p m).phase = RoundPhase.kAttack := rfl

theorem coverEarliest_deck (s : DurakState) (p m : Nat) :
    (coverEarliest s p m).deck = s.deck := by
  unfold coverEarliest
  cases findUncoveredIdx s.tableCards with
  | none => rfl
  | some i =>
    simp only
    split
    · unfold setHand
      by_cases hp : p = 0 <;> simp only [hp, if_true, if_false, reduceIte] <;>
        split <;> rfl
    · rfl

theorem coverEarliest_phase (s : DurakState) (p m : Nat) :
    (coverEarliest s p m).phase = RoundPhase.kAdditional ∨
      (coverEarliest s p m).phase = s.phase := by
  unfold coverEarliest
  cases findUncoveredIdx s.tableCards with
  | none => exact Or.inr rfl
  | some i =>
    simp only
    split
    · split
      · exact Or.inl rfl
      · unfold setHand
        by_cases hp : p = 0 <;> simp [hp]
    · exact Or.inr rfl

theorem cardMultiset_chance_deal (s : DurakState)
    (hci : s.cardsDealt < kCardsPerPlayer * kNumPlayers)
    (hpos : s.deckPos < s.deck.length) :
    cardMultiset (ApplyChanceAction s (s.deck.getD s.deckPos 0)) =
      cardMultiset s := by
  unfold ApplyChanceAction
  rw [if_pos hci,
    show cardMultiset s =
      ↑(s.deck.drop s.deckPos) + ↑s.hand0 + ↑s.hand1 +
        ↑(tableFlat s.tableCards) + ↑s.discard from rfl,
    drop_deal s.deck s.deckPos hpos]
  by_cases hp : s.cardsDealt % kNumPlayers = 0 <;>
    simp only [setHand, handOf, hp, if_true, if_false, reduceIte, cardMultiset,
      coe_cons_eq, ← Multiset.coe_add, Multiset.coe_singleton] <;>
    abel

theorem cardMultiset_chance_dealWT (s : DurakState)
    (hci : s.cardsDealt < kCardsPerPlayer * kNumPlayers)
    (hpos : s.deckPos < s.deck.length) :
    cardMultiset (ApplyChanceActionWT s (s.deck.getD s.deckPos 0)) =
      cardMultiset s := by
  unfold ApplyChanceActionWT
  rw [if_pos hci,
    show cardMultiset s =
      ↑(s.deck.drop s.deckPos) + ↑s.hand0 + ↑s.hand1 +
        ↑(tableFlat s.tableCards) + ↑s.discard from rfl,
    drop_deal s.deck s.deckPos hpos]
  by_cases hp : s.cardsDealt % kNumPlayers = 0 <;>
    simp only [setHand, handOf, hp, if_true, if_false, reduceIte, cardMultiset,
      coe_cons_eq, ← Multiset.coe_add, Multiset.coe_singleton] <;>
    abel

theorem cardMultiset_chance_reveal (s : DurakState) (o : Nat)
    (h : ¬ s.cardsDealt < kCardsPerPlayer * kNumPlayers) :
    cardMultiset (ApplyChanceAction s o) = cardMultiset s := by
  unfold ApplyChanceAction DecideFirstAttacker
  rw [if_neg h]
  rfl

theorem cardMultiset_chance_revealWT (s : DurakState) (o : Nat)
    (h : ¬ s.cardsDealt < kCardsPerPlayer * kNumPlayers) :
    cardMultiset (ApplyChanceActionWT s o) = cardMultiset s := by
  unfold ApplyChanceActionWT DecideFirstAttacker
  rw [if_neg h]
  rfl

theorem ApplyChanceAction_deck (s : DurakState) (o : Nat) :
    (ApplyChanceAction s o).deck = s.deck := by
  unfold ApplyChanceAction DecideFirstAttacker setHand
  split
  · by_cases hp : s.cardsDealt % kNumPlayers = 0 <;> simp [hp]
  · rfl

theorem ApplyChanceActionWT_deck (s : DurakState) (o : Nat) :
    (ApplyChanceActionWT s o).deck = s.deck := by
  unfold ApplyChanceActionWT DecideFirstAttacker setHand
  split
  · by_cases hp : s.cardsDealt % kNumPlayers = 0 <;> simp [hp]
  · rfl

theorem chance_deal_fields (s : DurakState) (o : Nat)
    (hci : s.cardsDealt < kCardsPerPlayer * kNumPlayers) :
    (ApplyChanceAction s o).deckPos = s.deckPos + 1 ∧
      (ApplyChanceAction s o).cardsDealt = s.cardsDealt + 1 ∧
      (ApplyChanceAction s o).phase = s.phase ∧
      ¬ ((ApplyChanceAction s o).hand0 = [] ∧ (ApplyChanceAction s o).hand1 = []) := by
  unfold ApplyChanceAction setHand handOf
  rw [if_pos hci]
  by_cases hp : s.cardsDealt % kNumPlayers = 0 <;> simp [hp]

theorem chance_deal_fieldsWT (s : DurakState) (o : Nat)
    (hci : s.cardsDealt < kCardsPerPlayer * kNumPlayers) :
    (ApplyChanceActionWT s o).deckPos = s.deckPos + 1 ∧
      (ApplyChanceActionWT s o).cardsDealt = s.cardsDealt + 1 ∧
      (ApplyChanceActionWT s o).phase = s.phase ∧
      ¬ ((ApplyChanceActionWT s o).hand0 = [] ∧
          (ApplyChanceActionWT s o).hand1 = []) := by
  unfold ApplyChanceActionWT setHand handOf
  rw [if_pos hci]
  by_cases hp : s.cardsDealt % kNumPlayers = 0 <;> simp [hp]

theorem ApplyChanceAction_reveal_phase (s : DurakState) (o : Nat)
    (h : ¬ s.cardsDealt < kCardsPerPlayer * kNumPlayers) :
    (ApplyChanceAction s o).phase = RoundPhase.kAttack := by
  unfold ApplyChanceAction DecideFirstAttacker
  rw [if_neg h]

theorem ApplyChanceActionWT_reveal_phase (s : DurakState) (o : Nat)
    (h : ¬ s.cardsDealt < kCardsPerPlayer * kNumPlayers) :
    (ApplyChanceActionWT s o).phase = RoundPhase.kAttack := by
  unfold ApplyChanceActionWT DecideFirstAttacker
  rw [if_neg h]

theorem Inv_CheckGameOver_nonchance (s t : DurakState) (hI : Inv s)
    (hm : cardMultiset t = cardMultiset s) (hd : t.deck = s.deck)
    (hp : t.phase ≠ RoundPhase.kChance) : Inv (CheckGameOver t) := by
  refine ⟨?_, ?_, ?_⟩
  · unfold ConservesCards
    rw [cardMultiset_CheckGameOver, hm]
    exact hI.1
  · rw [CheckGameOver_deck, hd]
    exact hI.2.1
  · intro hph
    rw [CheckGameOver_phase] at hph
    exact absurd hph hp

theorem Inv_chance_deal_step (s : DurakState) (hI : Inv s)
    (hch : s.phase = RoundPhase.kChance)
    (hd : s.cardsDealt < kCardsPerPlayer * kNumPlayers)
    (t : DurakState) (ht : t = ApplyChanceAction s (s.deck.getD s.deckPos 0) ∨
      t = ApplyChanceActionWT s (s.deck.getD s.deckPos 0)) :
    Inv (CheckGameOver t) := by
  obtain ⟨hpd, _⟩ := hI.2.2 hch
  have hpos : s.deckPos < s.deck.length := by
    have h36 : kNumCards = 36 := rfl
    have h12 : kCardsPerPlayer * kNumPlayers = 12 := rfl
    rw [hI.2.1, hpd]
    omega
  have hm : cardMultiset t = cardMultiset s := by
    rcases ht with h | h <;> rw [h]
    · exact cardMultiset_chance_deal s hd hpos
    · exact cardMultiset_chance_dealWT s hd hpos
  have hdeck : t.deck = s.deck := by
    rcases ht with h | h <;> rw [h]
    · exact ApplyChanceAction_deck s _
    · exact ApplyChanceActionWT_deck s _
  have hf : t.deckPos = s.deckPos + 1 ∧ t.cardsDealt = s.cardsDealt + 1 ∧
      t.phase = s.phase ∧ ¬ (t.hand0 = [] ∧ t.hand1 = []) := by
    rcases ht with h | h <;> rw [h]
    · exact chance_deal_fields s _ hd
    · exact chance_deal_fieldsWT s _ hd
  have hcg : CheckGameOver t = t := by
    apply CheckGameOver_id
    · intro hcon
      have h36 : kNumCards = 36 := rfl
      have h12 : kCardsPerPlayer * kNumPlayers = 12 := rfl
      have := hcon.2
      rw [hdeck, hI.2.1, hf.1, hpd] at this
      omega
    · exact hf.2.2.2
  rw [hcg]
  refine ⟨?_, ?_, ?_⟩
  · unfold ConservesCards
    rw [hm]
    exact hI.1
  · rw [hdeck]
    exact hI.2.1
  · intro _
    constructor
    · rw [hf.1, hf.2.1, hpd]
    · rw [hf.2.1]
      omega

theorem Inv_DoApplyAction (s : DurakState) (a : Nat) (hI : Inv s)
    (ha : a ∈ LegalActions s) : Inv (DoApplyAction s a) := by
  have hgo : ¬ (s.gameOver = true) := by
    intro hg
    rw [LegalActions, if_pos hg] at ha
    exact absurd ha (List.not_mem_nil a)
  by_cases hch : IsChanceNode s
  · rw [DoApplyAction, if_pos hch]
    by_cases hd : s.cardsDealt < kCardsPerPlayer * kNumPlayers
    · have hleg : a ∈ chanceOutcomeActions s := by
        rw [LegalActions, if_neg hgo, if_pos hch] at ha
        exact ha
      rw [chanceOutcomeActions, if_pos hd] at hleg
      have ha2 : a = s.deck.getD s.deckPos 0 := List.mem_singleton.mp hleg
      rw [ha2]
      exact Inv_chance_deal_step s hI hch hd _ (Or.inl rfl)
    · exact Inv_CheckGameOver_nonchance s _ hI
        (cardMultiset_chance_reveal s a hd) (ApplyChanceAction_deck s a)
        (by rw [ApplyChanceAction_reveal_phase s a hd]; decide)
  · simp only [DoApplyAction]
    rw [if_neg hch, if_neg hgo]
    by_cases hext : kNumCards ≤ a
    · rw [if_pos hext]
      by_cases h36 : a = kExtraActionTakeCards
      · rw [if_pos h36]
        exact Inv_CheckGameOver_nonchance s _ hI
          (cardMultiset_DefenderTakesCards s) (DefenderTakesCards_deck s)
          (by rw [DefenderTakesCards_phase]; decide)
      · rw [if_neg h36]
        by_cases h37 : a = kExtraActionFinishAttack
        · rw [if_pos h37]
          refine Inv_CheckGameOver_nonchance s _ hI
            (cardMultiset_AttackerFinishesAttack s) (AttackerFinishesAttack_deck s) ?_
          rcases AttackerFinishesAttack_phase s with h | h <;> rw [h]
          · exact hch
          · decide
        · rw [if_neg h37]
          by_cases h38 : a = kExtraActionFinishDefense
          · rw [if_pos h38]
            exact Inv_CheckGameOver_nonchance s _ hI
              (cardMultiset_DefenderFinishesDefense s)
              (DefenderFinishesDefense_deck s)
              (by rw [DefenderFinishesDefense_phase]; decide)
          · rw [if_neg h38]
            exact Inv_CheckGameOver_nonchance s s hI rfl rfl hch
    · rw [if_neg hext]
      by_cases hmem : a ∈ handOf s (currentTurnPlayer s)
      · rw [if_pos hmem]
        by_cases hatt : (s.phase = RoundPhase.kAttack ∨
            s.phase = RoundPhase.kAdditional) ∧ currentTurnPlayer s = s.attacker
        · rw [if_pos hatt]
          exact Inv_CheckGameOver_nonchance s _ hI
            (cardMultiset_placeAttack s _ a hmem) (placeAttack_deck s _ a)
            (by rw [placeAttack_phase]; decide)
        · rw [if_neg hatt]
          by_cases hdef : s.phase = RoundPhase.kDefense ∧
              currentTurnPlayer s = s.defender
          · rw [if_pos hdef]
            refine Inv_CheckGameOver_nonchance s _ hI
              (cardMultiset_coverEarliest s _ a hmem) (coverEarliest_deck s _ a) ?_
            rcases coverEarliest_phase s (currentTurnPlayer s) a with h | h <;>
              rw [h]
            · decide
            · exact hch
          · rw [if_neg hdef]
            exact Inv_CheckGameOver_nonchance s s hI rfl rfl hch
      · rw [if_neg hmem]
        exact hI

theorem Inv_DoApplyActionWT (s : DurakState) (a : Nat) (hI : Inv s)
    (ha : a ∈ LegalActionsWT s) : Inv (DoApplyActionWT s a) := by
  have hgo : ¬ (s.gameOver = true) := by
    intro hg
    rw [LegalActionsWT, if_pos hg] at ha
    exact absurd ha (List.not_mem_nil a)
  have hI0 : Inv { s with lastAction := (a : Int) } := ⟨hI.1, hI.2.1, hI.2.2⟩
  by_cases hch : IsChanceNode s
  · rw [DoApplyActionWT, if_pos (show IsChanceNode { s with lastAction := (a : Int) } from hch)]
    by_cases hd : s.cardsDealt < kCardsPerPlayer * kNumPlayers
    · have hleg : a ∈ chanceOutcomeActions s := by
        rw [LegalActionsWT, if_neg hgo, if_pos hch] at ha
        exact ha
      rw [chanceOutcomeActions, if_pos hd] at hleg
      have ha2 : a = s.deck.getD s.deckPos 0 := List.mem_singleton.mp hleg
      rw [ha2]
      exact Inv_chance_deal_step { s with lastAction := ((s.deck.getD s.deckPos 0 : Nat) : Int) }
        hI0 hch hd _ (Or.inr rfl)
    · exact Inv_CheckGameOver_nonchance _ _ hI0
        (cardMultiset_chance_revealWT { s with lastAction := (a : Int) } a hd)
        (ApplyChanceActionWT_deck { s with lastAction := (a : Int) } a)
        (by rw [ApplyChanceActionWT_reveal_phase
            { s with lastAction := (a : Int) } a hd]; decide)
  · simp only [DoApplyActionWT]
    rw [if_neg (show ¬ IsChanceNode { s with lastAction := (a : Int) } from hch),
      if_neg hgo]
    by_cases h39 : a = kExtraActionTransfer
    · rw [if_pos h39]
      exact Inv_CheckGameOver_nonchance _ _ hI0 rfl rfl
        (fun h => RoundPhase.noConfusion h)
    · rw [if_neg h39]
      by_cases h36 : a = kExtraActionTakeCards
      · rw [if_pos h36]
        exact Inv_CheckGameOver_nonchance _ _ hI0
          (cardMultiset_DefenderTakesCards _) (DefenderTakesCards_deck _)
          (by rw [DefenderTakesCards_phase]; decide)
      · rw [if_neg h36]
        by_cases h37 : a = kExtraActionFinishAttack
        · rw [if_pos h37]
          refine Inv_CheckGameOver_nonchance _ _ hI0
            (cardMultiset_AttackerFinishesAttack _)
            (AttackerFinishesAttack_deck _) ?_
          rcases AttackerFinishesAttack_phase { s with lastAction := (a : Int) }
            with h | h <;> rw [h]
          · exact hch
          · decide
        · rw [if_neg h37]
          by_cases h38 : a = kExtraActionFinishDefense
          · rw [if_pos h38]
            exact Inv_CheckGameOver_nonchance _ _ hI0
              (cardMultiset_DefenderFinishesDefense _)
              (DefenderFinishesDefense_deck _)
              (by rw [DefenderFinishesDefense_phase]; decide)
          · rw [if_neg h38]
            by_cases hmem : a ∈ handOf { s with lastAction := (a : Int) }
                (currentTurnPlayer { s with lastAction := (a : Int) })
            · rw [if_pos hmem]
              by_cases hatt : (s.phase = RoundPhase.kAttack ∨
                  s.phase = RoundPhase.kAdditional) ∧
                  currentTurnPlayer { s with lastAction := (a : Int) } = s.attacker
              · rw [if_pos hatt]
                exact Inv_CheckGameOver_nonchance _ _ hI0
                  (cardMultiset_placeAttack _ _ a hmem) (placeAttack_deck _ _ a)
                  (by rw [placeAttack_phase]; decide)
              · rw [if_neg hatt]
                by_cases hdef : s.phase = RoundPhase.kDefense ∧
                    currentTurnPlayer { s with lastAction := (a : Int) } = s.defender
                · rw [if_pos hdef]
                  refine Inv_CheckGameOver_nonchance _ _ hI0
                    (cardMultiset_coverEarliest _ _ a hmem)
                    (coverEarliest_deck _ _ a) ?_
                  rcases coverEarliest_phase { s with lastAction := (a : Int) }
                    (currentTurnPlayer { s with lastAction := (a : Int) }) a with h | h <;>
                    rw [h]
                  · decide
                  · exact hch
                · rw [if_neg hdef]
                  exact Inv_CheckGameOver_nonchance _ _ hI0 rfl rfl hch
            · rw [if_neg hmem]
              exact hI0

theorem Inv_playLegal :
    ∀ (acts : List Nat) (s t : DurakState), Inv s → playLegal s acts = some t →
      Inv t := by
  intro acts
  induction acts with
  | nil =>
    intro s t hI he
    cases he
    exact hI
  | cons a rest ih =>
    intro s t hI he
    rw [playLegal] at he
    cases hst : stepLegal s a with
    | none => rw [hst] at he; exact absurd he (by simp)
    | some s1 =>
      rw [hst] at he
      have hmem : a ∈ LegalActions s ∧ s1 = DoApplyAction s a := by
        unfold stepLegal at hst
        by_cases hm : a ∈ LegalActions s
        · rw [if_pos hm] at hst
          cases hst
          exact ⟨hm, rfl⟩
        · rw [if_neg hm] at hst
          exact absurd hst (by simp)
      exact ih s1 t (hmem.2 ▸ Inv_DoApplyAction s a hI hmem.1) he

theorem Inv_playLegalWT :
    ∀ (acts : List Nat) (s t : DurakState), Inv s → playLegalWT s acts = some t →
      Inv t := by
  intro acts
  induction acts with
  | nil =>
    intro s t hI he
    cases he
    exact hI
  | cons a rest ih =>
    intro s t hI he
    rw [playLegalWT] at he
    cases hst : stepLegalWT s a with
    | none => rw [hst] at he; exact absurd he (by simp)
    | some s1 =>
      rw [hst] at he
      have hmem : a ∈ LegalActionsWT s ∧ s1 = DoApplyActionWT s a := by
        unfold stepLegalWT at hst
        by_cases hm : a ∈ LegalActionsWT s
        · rw [if_pos hm] at hst
          cases hst
          exact ⟨hm, rfl⟩
        · rw [if_neg hm] at hst
          exact absurd hst (by simp)
      exact ih s1 t (hmem.2 ▸ Inv_DoApplyActionWT s a hI hmem.1) he

theorem Inv_InitFields (deck : List Nat)
    (hperm : deck.Perm (List.range kNumCards)) : Inv (InitFields deck) := by
  refine ⟨?_, ?_, ?_⟩
  · unfold ConservesCards cardMultiset InitFields tableFlat
    simp only [List.drop_zero, List.flatMap_nil, Multiset.coe_nil, add_zero]
    exact Multiset.coe_eq_coe.mpr hperm
  · exact hperm.length_eq.trans (List.length_range kNumCards)
  · intro _
    exact ⟨rfl, Nat.zero_le _⟩

theorem Inv_init (deck : List Nat)
    (hperm : deck.Perm (List.range kNumCards)) : Inv (DurakStateInit deck) :=
  Inv_InitFields deck hperm

theorem Inv_initWT (deck : List Nat)
    (hperm : deck.Perm (List.range kNumCards)) :
    Inv (DurakWithTransfersStateInit deck 0) := by
  have hne : ¬ deck = [] := by
    intro h
    have := hperm.length_eq
    rw [h] at this
    simp at this
  rw [DurakWithTransfersStateInit, if_neg hne]
  exact Inv_InitFields deck hperm

theorem lt_of_mem_cardMultiset (s : DurakState) (hI : Inv s) (c : Nat)
    (hc : c ∈ cardMultiset s) : c < kNumCards := by
  rw [hI.1] at hc
  exact List.mem_range.mp (Multiset.mem_coe.mp hc)

theorem hands_lt_of_Inv (s : DurakState) (hI : Inv s) (c : Nat)
    (hc : c ∈ s.hand0 ∨ c ∈ s.hand1) : c < kNumCards := by
  apply lt_of_mem_cardMultiset s hI
  unfold cardMultiset
  rcases hc with h | h
  · exact Multiset.mem_add.mpr (Or.inl (Multiset.mem_add.mpr (Or.inl
      (Multiset.mem_add.mpr (Or.inl (Multiset.mem_add.mpr
        (Or.inr (Multiset.mem_coe.mpr h))))))))
  · exact Multiset.mem_add.mpr (Or.inl (Multiset.mem_add.mpr (Or.inl
      (Multiset.mem_add.mpr (Or.inr (Multiset.mem_coe.mpr h))))))

theorem drop_lt_of_Inv (s : DurakState) (hI : Inv s) (c : Nat)
    (hc : c ∈ s.deck.drop s.deckPos) : c < kNumCards := by
  apply lt_of_mem_cardMultiset s hI
  unfold cardMultiset
  exact Multiset.mem_add.mpr (Or.inl (Multiset.mem_add.mpr (Or.inl
    (Multiset.mem_add.mpr (Or.inl (Multiset.mem_add.mpr
      (Or.inl (Multiset.mem_coe.mpr hc))))))))

theorem getLastD_irrel :
    ∀ (l : List Nat) (d d' : Nat), l ≠ [] → l.getLastD d = l.getLastD d' := by
  intro l
  induction l with
  | nil => intro d d' h; exact absurd rfl h
  | cons a t _ =>
    intro d d' _
    rw [List.getLastD_cons, List.getLastD_cons]

theorem getLastD_mem : ∀ (l : List Nat) (d : Nat), l ≠ [] → l.getLastD d ∈ l := by
  intro l
  induction l with
  | nil => intro d h; exact absurd rfl h
  | cons a t ih =>
    intro d _
    rw [List.getLastD_cons]
    cases ht : t with
    | nil => simp [ht, List.getLastD]
    | cons b u =>
      subst ht
      exact List.mem_cons_of_mem a (ih a (by simp))

theorem getLastD_drop :
    ∀ (l : List Nat) (n : Nat), n < l.length →
      (l.drop n).getLastD 0 = l.getLastD 0 := by
  intro l
  induction l with
  | nil => intro n h; simp at h
  | cons a t ih =>
    intro n h
    cases n with
    | zero => rfl
    | succ k =>
      have hk : k < t.length := by simpa using h
      have ht : t ≠ [] := by intro he; rw [he] at hk; simp at hk
      rw [List.drop_succ_cons, ih k hk, List.getLastD_cons, getLastD_irrel t a 0 ht]

theorem getLastD_mem_drop (l : List Nat) (n : Nat) (h : n < l.length) :
    l.getLastD 0 ∈ l.drop n := by
  have hne : l.drop n ≠ [] := by
    intro he
    have hlen := congrArg List.length he
    simp at hlen
    omega
  rw [← getLastD_drop l n h]
  exact getLastD_mem _ 0 hne

/-!  C1 - card conservation over all reachable states of both engines. -/

/-- C1: for every state reachable by legal actions (forced chance outcomes
included) from the initial state built over a permutation `deck` of the 36
card identifiers, the multiset union of remaining deck cards, both hands,
the table's attacking and (where present) defending cards, and the discard
pile is exactly the identifier set 0..35, each once.  This holds for the
base engine and for the transfer variant. -/
theorem card_conservation (deck : List Nat)
    (hperm : deck.Perm (List.range kNumCards)) (s : DurakState) :
    (ReachableFrom deck s → ConservesCards s) ∧
    (ReachableFromWT deck s → ConservesCards s) := by
  constructor
  · rintro ⟨acts, hp⟩
    exact (Inv_playLegal acts _ s (Inv_init deck hperm) hp).1
  · rintro ⟨acts, hp⟩
    exact (Inv_playLegalWT acts _ s (Inv_initWT deck hperm) hp).1

/-- Witness for C1: the identity permutation and the freshly constructed
states of both engines. -/
theorem card_conservation_witness :
    ConservesCards (DurakStateInit (List.range kNumCards)) ∧
    ConservesCards (DurakWithTransfersStateInit (List.range kNumCards) 0) :=
  ⟨(card_conservation (List.range kNumCards) (List.Perm.refl _) _).1 ⟨[], rfl⟩,
   (card_conservation (List.range kNumCards) (List.Perm.refl _) _).2 ⟨[], rfl⟩⟩

/-- C6: the covering predicate (shared verbatim by both engines).  No card
covers itself; a trump-suited card covers every non-trump card; and among
two distinct same-suit non-trump cards, covering holds exactly when the
defending rank is strictly higher. -/
theorem can_defend_spec (s : DurakState) :
    (∀ c : Nat, CanDefendCard s c c = false) ∧
    (∀ d a : Nat, d < kNumCards → a < kNumCards →
      (SuitOf d : Int) = s.trumpSuit → (SuitOf a : Int) ≠ s.trumpSuit →
      CanDefendCard s d a = true) ∧
    (∀ d a : Nat, d < kNumCards → a < kNumCards → d ≠ a →
      SuitOf d = SuitOf a → (SuitOf d : Int) ≠ s.trumpSuit →
      (CanDefendCard s d a = true ↔ RankOf a < RankOf d)) := by
  refine ⟨?_, ?_, ?_⟩
  · intro c
    simp only [CanDefendCard]
    rw [if_neg (fun h => absurd h.2 (lt_irrefl _)),
      if_neg (fun h => h.2 h.1),
      if_neg (fun h => absurd h.2.2 (lt_irrefl _))]
  · intro d a _ _ hdt hat
    simp only [CanDefendCard]
    rw [if_neg (fun h => hat (by rw [h.1]; exact hdt)), if_pos ⟨hdt, hat⟩]
  · intro d a _ _ _ hsuit hnt
    simp only [CanDefendCard]
    by_cases hr : RankOf a < RankOf d
    · rw [if_pos ⟨hsuit.symm, hr⟩]
      simp [hr]
    · rw [if_neg (fun h => hr h.2),
        if_neg (fun h => hnt h.1),
        if_neg (fun h => hnt h.2.1)]
      simp [hr]

/-- Witness for C6 with trump suit 3: card 5 never covers itself, trump 27
covers non-trump 5, and same-suit 4-over-3 covering is the rank test. -/
theorem can_defend_spec_witness :
    CanDefendCard { InitFields (List.range kNumCards) with trumpSuit := 3 } 5 5 =
      false ∧
    CanDefendCard { InitFields (List.range kNumCards) with trumpSuit := 3 } 27 5 =
      true ∧
    (CanDefendCard { InitFields (List.range kNumCards) with trumpSuit := 3 } 4 3 =
      true ↔ RankOf 3 < RankOf 4) :=
  ⟨(can_defend_spec _).1 5,
   (can_defend_spec _).2.1 27 5 (by decide) (by decide) (by decide) (by decide),
   (can_defend_spec _).2.2 4 3 (by decide) (by decide) (by decide) (by decide)
     (by decide)⟩

/-- C3 (amended): in a terminal state with the deck exhausted, player 0's
hand empty and player 1's hand non-empty, `Returns()` is `(+1, -1)` — the
player still holding cards is the loser.  The `Returns` code is identical
in both engines and embedded once. -/
theorem scenario_e_returns (s : DurakState) (hterm : s.gameOver = true)
    (hdeck : s.deck.length ≤ s.deckPos) (h0 : s.hand0 = []) (h1 : s.hand1 ≠ []) :
    Returns s = (1, -1) := by
  unfold Returns
  rw [if_neg (by rw [hterm]; exact fun h => Bool.noConfusion h),
    if_neg (fun h => h.1 h0),
    if_neg (fun h => h h0),
    if_pos h1]

/-- Witness for C3's amended statement at a concrete terminal state. -/
theorem scenario_e_returns_witness :
    Returns { InitFields (List.range kNumCards) with
      gameOver := true, deckPos := 36, hand1 := [0] } = (1, -1) :=
  scenario_e_returns _ rfl (by decide) rfl (by decide)

/-- C2 (amended): in any non-chance, non-terminal state, applying a card
identifier (0..35) that is not in the current player's hand leaves the
base engine's state unchanged, and changes only the transfer variant's
last-action tracker (which unconditionally records every applied move).
Out-of-legal-set actions in general are NOT no-ops: `DoApplyAction` does
not re-check rank/capacity legality for an attacker's in-hand card and
does not phase-check the extra actions. -/
theorem invalid_card_not_in_hand_noop (s : DurakState) (a : Nat)
    (hch : ¬ IsChanceNode s) (hgo : ¬ (s.gameOver = true)) (ha : a < kNumCards)
    (hmem : a ∉ handOf s (currentTurnPlayer s)) :
    DoApplyAction s a = s ∧
    DoApplyActionWT s a = { s with lastAction := (a : Int) } := by
  constructor
  · simp only [DoApplyAction]
    rw [if_neg hch, if_neg hgo,
      if_neg (fun hle => absurd (Nat.lt_of_lt_of_le ha hle) (lt_irrefl a)),
      if_neg hmem]
  · simp only [DoApplyActionWT]
    rw [if_neg (show ¬ IsChanceNode { s with lastAction := (a : Int) } from hch),
      if_neg hgo,
      if_neg (show ¬ a = kExtraActionTransfer from
        fun he => absurd (he ▸ ha) (by decide)),
      if_neg (show ¬ a = kExtraActionTakeCards from
        fun he => absurd (he ▸ ha) (by decide)),
      if_neg (show ¬ a = kExtraActionFinishAttack from
        fun he => absurd (he ▸ ha) (by decide)),
      if_neg (show ¬ a = kExtraActionFinishDefense from
        fun he => absurd (he ▸ ha) (by decide)),
      if_neg (show a ∉ handOf { s with lastAction := (a : Int) }
        (currentTurnPlayer { s with lastAction := (a : Int) }) from hmem)]

/-- Witness for C2's amended statement: playing card 3 without holding it
is a no-op apart from the transfer variant's last-action tracker. -/
theorem invalid_card_not_in_hand_noop_witness :
    DoApplyAction
        { InitFields (List.range kNumCards) with phase := RoundPhase.kAttack } 3 =
      { InitFields (List.range kNumCards) with phase := RoundPhase.kAttack } ∧
    DoApplyActionWT
        { InitFields (List.range kNumCards) with phase := RoundPhase.kAttack } 3 =
      { { InitFields (List.range kNumCards) with phase := RoundPhase.kAttack } with
          lastAction := (3 : Int) } :=
  invalid_card_not_in_hand_noop _ 3 (by decide) (by decide) (by decide) (by decide)

/-- A mid-game position of the transfer variant: the deck is exhausted,
the defender (player 1) holds a single card, one uncovered attack sits on
the table, and the attacker holds card 9, whose rank 0 matches table card
0; every other card is in the discard.  Capacity per the documented rule
min(6, defender hand) = 1 is already reached. -/
def capacityState : DurakState :=
  { deck := List.range kNumCards
    hand0 := [9]
    hand1 := [20]
    tableCards := [(0, none)]
    discard := (List.range kNumCards).filter (fun c => c ≠ 0 ∧ c ≠ 9 ∧ c ≠ 20)
    trumpSuit := 3
    trumpCard := 35
    cardsDealt := 12
    deckPos := 36
    attacker := 0
    defender := 1
    phase := RoundPhase.kAttack
    roundStarter := 0
    lastAction := 0
    gameOver := false }

/-- C4: evaluating `DurakWithTransfersState::LegalActions` at
`capacityState`.  The code's gate is `table_cards_.size() < 6 &&
!hands_[defender_].empty()`, so card 9 is offered even though the table
already holds min(6, defender hand size) = 1 entry; the comment above the
gate ("up to kCardsPerPlayer or fewer if the defender has fewer") and §4.3
of the spec demand the min rule. -/
theorem attack_capacity_eval :
    ConservesCards capacityState ∧
    capacityState.phase = RoundPhase.kAttack ∧
    RankOf 9 = RankOf 0 ∧
    9 ∈ LegalActionsWT capacityState ∧
    ¬ (capacityState.tableCards.length <
        min kCardsPerPlayer (handOf capacityState capacityState.defender).length) := by
  decide

/-- The parsed integer list of the malformed `init_deck` string
"0,0,2,3,...,35": card 0 appears twice and card 1 never. -/
def badDeck : List Nat := 0 :: 0 :: (List.range kNumCards).drop 2

/-- C8: evaluating the transfer-variant constructor at the malformed deck.
The constructor parses the 36 integers with no validation whatsoever, so
construction succeeds (normal chance phase, not failed) with the
non-permutation deck stored verbatim; no malformed-deck error exists
anywhere in the code. -/
theorem malformed_deck_accepted_eval :
    (DurakWithTransfersStateInit badDeck 0).deck = badDeck ∧
    ¬ badDeck.Perm (List.range kNumCards) ∧
    (DurakWithTransfersStateInit badDeck 0).phase = RoundPhase.kChance ∧
    (DurakWithTransfersStateInit badDeck 0).gameOver = false := by
  decide

/-- C9: with `init_deck` empty the deck is produced by the pure pipeline
mt19937(seed) -> Fisher-Yates, so any two initial states built with the
same `rng_seed` have the same deck order, equal states, and identical play
under every action sequence.  (This is the transfer variant; the base
engine takes no `rng_seed` and seeds from `std::random_device`.) -/
theorem seeded_deck_deterministic (seed : Nat) (s1 s2 : DurakState)
    (h1 : s1 = DurakWithTransfersStateInit [] seed)
    (h2 : s2 = DurakWithTransfersStateInit [] seed) :
    s1.deck = s2.deck ∧ s1 = s2 ∧
      ∀ acts : List Nat, playLegalWT s1 acts = playLegalWT s2 acts := by
  subst h1
  subst h2
  exact ⟨rfl, rfl, fun _ => rfl⟩

/-- Witness for C9 at seed 0. -/
theorem seeded_deck_deterministic_witness :
    (DurakWithTransfersStateInit [] 0).deck =
      (DurakWithTransfersStateInit [] 0).deck :=
  (seeded_deck_deterministic 0 _ _ rfl rfl).1

/-- C10: the trump-reveal chance step (both engines) changes only
trump card/suit, attacker/defender, round starter and the phase (to
`kAttack`); hands, deck order, cursor, table, discard, deal counter, the
game-over flag and (variant) the last-action tracker are untouched, the
cursor in particular is not advanced, so the revealed trump card is still
among the remaining deck cards; and whenever a later `RefillHands` leaves
the cursor short of the deck's end, the trump (bottom) card is still among
the remaining deck cards — it enters a hand only as the last card drawn. -/
theorem trump_reveal_frame (s : DurakState) (outcome : Nat)
    (hdeal : ¬ s.cardsDealt < kCardsPerPlayer * kNumPlayers)
    (hpos : s.deckPos < s.deck.length)
    (hout : outcome = s.deck.getLastD 0) :
    ((ApplyChanceAction s outcome).hand0 = s.hand0 ∧
     (ApplyChanceAction s outcome).hand1 = s.hand1 ∧
     (ApplyChanceAction s outcome).deck = s.deck ∧
     (ApplyChanceAction s outcome).deckPos = s.deckPos ∧
     (ApplyChanceAction s outcome).tableCards = s.tableCards ∧
     (ApplyChanceAction s outcome).discard = s.discard ∧
     (ApplyChanceAction s outcome).cardsDealt = s.cardsDealt ∧
     (ApplyChanceAction s outcome).gameOver = s.gameOver ∧
     (ApplyChanceAction s outcome).lastAction = s.lastAction ∧
     (ApplyChanceAction s outcome).phase = RoundPhase.kAttack ∧
     (ApplyChanceAction s outcome).trumpCard = (outcome : Int) ∧
     (ApplyChanceAction s outcome).trumpSuit = (SuitOf outcome : Int) ∧
     outcome ∈ s.deck.drop (ApplyChanceAction s outcome).deckPos) ∧
    ((ApplyChanceActionWT s outcome).hand0 = s.hand0 ∧
     (ApplyChanceActionWT s outcome).hand1 = s.hand1 ∧
     (ApplyChanceActionWT s outcome).deck = s.deck ∧
     (ApplyChanceActionWT s outcome).deckPos = s.deckPos ∧
     (ApplyChanceActionWT s outcome).tableCards = s.tableCards ∧
     (ApplyChanceActionWT s outcome).discard = s.discard ∧
     (ApplyChanceActionWT s outcome).cardsDealt = s.cardsDealt ∧
     (ApplyChanceActionWT s outcome).gameOver = s.gameOver ∧
     (ApplyChanceActionWT s outcome).lastAction = s.lastAction ∧
     (ApplyChanceActionWT s outcome).phase = RoundPhase.kAttack ∧
     (ApplyChanceActionWT s outcome).trumpCard = (outcome : Int) ∧
     (ApplyChanceActionWT s outcome).trumpSuit = (SuitOf outcome : Int) ∧
     outcome ∈ s.deck.drop (ApplyChanceActionWT s outcome).deckPos) ∧
    (∀ t : DurakState, t.deck = s.deck →
      (RefillHands t).deckPos < t.deck.length →
      s.deck.getLastD 0 ∈ t.deck.drop (RefillHands t).deckPos) := by
  refine ⟨?_, ?_, ?_⟩
  · simp only [ApplyChanceAction, DecideFirstAttacker]
    rw [if_neg hdeal]
    refine ⟨rfl, rfl, rfl, rfl, rfl, rfl, rfl, rfl, rfl, rfl, rfl, rfl, ?_⟩
    rw [hout]
    exact getLastD_mem_drop s.deck s.deckPos hpos
  · simp only [ApplyChanceActionWT, DecideFirstAttacker]
    rw [if_neg hdeal]
    refine ⟨rfl, rfl, rfl, rfl, rfl, rfl, rfl, rfl, rfl, rfl, ?_, ?_, ?_⟩
    · rw [hout]
    · rw [hout]
    · rw [hout]
      exact getLastD_mem_drop s.deck s.deckPos hpos
  · intro t htd hlt
    rw [← htd]
    exact getLastD_mem_drop t.deck _ hlt

/-- A concrete pre-reveal position over the identity deck for C10's
witness: 12 cards dealt alternately, cursor at 12. -/
def revealState : DurakState :=
  { InitFields (List.range kNumCards) with
      cardsDealt := 12, deckPos := 12,
      hand0 := [0, 2, 4, 6, 8, 10], hand1 := [1, 3, 5, 7, 9, 11] }

/-- Witness for C10 at `revealState` with the forced outcome 35. -/
theorem trump_reveal_frame_witness :
    (ApplyChanceAction revealState 35).deckPos = revealState.deckPos ∧
    35 ∈ revealState.deck.drop (ApplyChanceAction revealState 35).deckPos := by
  have h := trump_reveal_frame revealState 35 (by decide) (by decide) (by decide)
  exact ⟨h.1.2.2.2.1, h.1.2.2.2.2.2.2.2.2.2.2.2.2⟩

/-!  C5 - the first-attacker scan.  `lowestTrumpFold_spec` characterises
one pass of the `DecideFirstAttacker` loop: the accumulator is either
untouched, or it was improved to a trump card of this hand held by this
player with a strictly smaller rank; in either case the final value is a
lower bound (in rank) on every trump card of the hand. -/

theorem lowestTrumpFold_spec (ts : Int) (p : Nat) :
    ∀ (hand : List Nat) (acc : Int × Nat),
      (lowestTrumpFold ts p acc hand = acc ∨
        (0 ≤ (lowestTrumpFold ts p acc hand).1 ∧
         (lowestTrumpFold ts p acc hand).2 = p ∧
         (∃ c ∈ hand, (c : Int) = (lowestTrumpFold ts p acc hand).1 ∧
            (SuitOf c : Int) = ts) ∧
         (0 ≤ acc.1 →
            (lowestTrumpFold ts p acc hand).1 % 9 < acc.1 % 9))) ∧
      (∀ d ∈ hand, (SuitOf d : Int) = ts →
        0 ≤ (lowestTrumpFold ts p acc hand).1 ∧
          (lowestTrumpFold ts p acc hand).1 % 9 ≤ (RankOf d : Int)) := by
  intro hand
  induction hand with
  | nil =>
    intro acc
    refine ⟨Or.inl rfl, ?_⟩
    intro d hd
    exact absurd hd (List.not_mem_nil d)
  | cons c rest ih =>
    intro acc
    have hstep : lowestTrumpFold ts p acc (c :: rest) =
        lowestTrumpFold ts p
          (if (SuitOf c : Int) = ts then
            (if acc.1 < 0 ∨ (RankOf c : Int) < acc.1 % 9 then ((c : Int), p)
             else acc)
          else acc) rest := rfl
    by_cases hsc : (SuitOf c : Int) = ts
    · by_cases himp : acc.1 < 0 ∨ (RankOf c : Int) < acc.1 % 9
      · rw [hstep, if_pos hsc, if_pos himp]
        obtain ⟨ih1, ih2⟩ := ih ((c : Int), p)
        constructor
        · right
          rcases ih1 with he | ⟨hnn, hwho, ⟨e, hem, hee, hes⟩, hdec⟩
          · rw [he]
            refine ⟨Int.natCast_nonneg c, rfl,
              ⟨c, List.mem_cons_self c rest, rfl, hsc⟩, ?_⟩
            intro hacc
            show (c : Int) % 9 < acc.1 % 9
            unfold RankOf at himp
            rcases himp with h | h
            · omega
            · omega
          · refine ⟨hnn, hwho, ⟨e, List.mem_cons_of_mem c hem, hee, hes⟩, ?_⟩
            intro hacc
            have h1 := hdec (Int.natCast_nonneg c)
            have h2 : ((c : Int), p).1 % 9 = (c : Int) % 9 := rfl
            rw [h2] at h1
            unfold RankOf at himp
            rcases himp with h | h
            · omega
            · omega
        · intro d hd hdt
          rcases List.mem_cons.mp hd with rfl | hd'
          · rcases ih1 with he | ⟨hnn, _, _, hdec⟩
            · rw [he]
              refine ⟨Int.natCast_nonneg d, ?_⟩
              show (d : Int) % 9 ≤ (RankOf d : Int)
              unfold RankOf
              omega
            · refine ⟨hnn, ?_⟩
              have h1 := hdec (Int.natCast_nonneg d)
              have h2 : ((d : Int), p).1 % 9 = (d : Int) % 9 := rfl
              rw [h2] at h1
              unfold RankOf
              omega
          · exact ih2 d hd' hdt
      · rw [hstep, if_pos hsc, if_neg himp]
        obtain ⟨ih1, ih2⟩ := ih acc
        push_neg at himp
        constructor
        · rcases ih1 with he | ⟨hnn, hwho, ⟨e, hem, hee, hes⟩, hdec⟩
          · exact Or.inl he
          · exact Or.inr ⟨hnn, hwho,
              ⟨e, List.mem_cons_of_mem c hem, hee, hes⟩, hdec⟩
        · intro d hd hdt
          rcases List.mem_cons.mp hd with rfl | hd'
          · rcases ih1 with he | ⟨hnn, _, _, hdec⟩
            · rw [he]
              have h1 := himp.1
              have h2 := himp.2
              unfold RankOf at h2 ⊢
              exact ⟨h1, by omega⟩
            · refine ⟨hnn, ?_⟩
              have h1 := hdec himp.1
              have h2 := himp.2
              unfold RankOf at h2 ⊢
              omega
          · exact ih2 d hd' hdt
    · rw [hstep, if_neg hsc]
      obtain ⟨ih1, ih2⟩ := ih acc
      constructor
      · rcases ih1 with he | ⟨hnn, hwho, ⟨e, hem, hee, hes⟩, hdec⟩
        · exact Or.inl he
        · exact Or.inr ⟨hnn, hwho,
            ⟨e, List.mem_cons_of_mem c hem, hee, hes⟩, hdec⟩
      · intro d hd hdt
        rcases List.mem_cons.mp hd with rfl | hd'
        · exact absurd hdt hsc
        · exact ih2 d hd' hdt

/-- The first-attacker decision: if player `p` (0 or 1) holds a
trump-suited card of strictly smaller rank than every trump-suited card of
the other hand, the scan picks `p` as attacker and the other player as
defender. -/
theorem DecideFirstAttacker_min (s : DurakState) (p : Nat)
    (hp : p = 0 ∨ p = 1) (c : Nat) (hc : c ∈ handOf s p)
    (hct : (SuitOf c : Int) = s.trumpSuit)
    (hmin : ∀ d ∈ handOf s (1 - p), (SuitOf d : Int) = s.trumpSuit →
      RankOf c < RankOf d) :
    (DecideFirstAttacker s).attacker = p ∧
      (DecideFirstAttacker s).defender = 1 - p := by
  have hwho : (lowestTrumpFold s.trumpSuit 1
      (lowestTrumpFold s.trumpSuit 0 (-1, 0) s.hand0) s.hand1).2 = p := ?side
  case _ =>
    refine ⟨hwho, ?_⟩
    show 1 - (lowestTrumpFold s.trumpSuit 1
      (lowestTrumpFold s.trumpSuit 0 (-1, 0) s.hand0) s.hand1).2 = 1 - p
    rw [hwho]
  case side =>
    obtain ⟨spec01, spec02⟩ :=
      lowestTrumpFold_spec s.trumpSuit 0 s.hand0 (-1, 0)
    obtain ⟨spec11, spec12⟩ := lowestTrumpFold_spec s.trumpSuit 1 s.hand1
      (lowestTrumpFold s.trumpSuit 0 (-1, 0) s.hand0)
    rcases hp with rfl | rfl
    · have hc0 : c ∈ s.hand0 := by simpa [handOf] using hc
      have hmin1 : ∀ d ∈ s.hand1, (SuitOf d : Int) = s.trumpSuit →
          RankOf c < RankOf d := by
        intro d hd hdt
        exact hmin d (by simpa [handOf] using hd) hdt
      obtain ⟨h0nn, h0le⟩ := spec02 c hc0 hct
      have hwho0 : (lowestTrumpFold s.trumpSuit 0 (-1, 0) s.hand0).2 = 0 := by
        rcases spec01 with he | ⟨_, hwho1, _, _⟩
        · rw [he] at h0nn
          exact absurd h0nn (by decide)
        · exact hwho1
      rcases spec11 with he | ⟨_, _, ⟨e, hem, hee, hes⟩, hdec⟩
      · rw [he]
        exact hwho0
      · exfalso
        have h1 := hdec h0nn
        have h2 := hmin1 e hem hes
        rw [← hee] at h1
        unfold RankOf at h0le h2
        omega
    · have hc1 : c ∈ s.hand1 := by simpa [handOf] using hc
      have hmin0 : ∀ d ∈ s.hand0, (SuitOf d : Int) = s.trumpSuit →
          RankOf c < RankOf d := by
        intro d hd hdt
        exact hmin d (by simpa [handOf] using hd) hdt
      obtain ⟨h1nn, h1le⟩ := spec12 c hc1 hct
      rcases spec11 with he | ⟨_, hwho1, _, _⟩
      · exfalso
        rcases spec01 with he0 | ⟨_, _, ⟨e, hem, hee, hes⟩, _⟩
        · rw [he, he0] at h1nn
          exact absurd h1nn (by decide)
        · have h2 := hmin0 e hem hes
          rw [he, ← hee] at h1le
          unfold RankOf at h1le h2
          omega
      · exact hwho1

/-- C5: at the trump-reveal chance step of either engine (the forced
outcome is the deck's bottom card, whose suit becomes trump), whenever a
player holds the trump-suited card of strictly minimum rank over both
hands (the minimum is unique: a suit holds each rank once), that player
becomes attacker and the other defender. -/
theorem first_attacker_min_trump (s : DurakState) (outcome : Nat) (p : Nat)
    (hp : p = 0 ∨ p = 1)
    (hdeal : ¬ s.cardsDealt < kCardsPerPlayer * kNumPlayers)
    (hout : outcome = s.deck.getLastD 0)
    (c : Nat) (hc : c ∈ handOf s p) (hct : SuitOf c = SuitOf outcome)
    (hmin : ∀ d ∈ handOf s (1 - p), SuitOf d = SuitOf outcome →
      RankOf c < RankOf d) :
    ((ApplyChanceAction s outcome).attacker = p ∧
      (ApplyChanceAction s outcome).defender = 1 - p) ∧
    ((ApplyChanceActionWT s outcome).attacker = p ∧
      (ApplyChanceActionWT s outcome).defender = 1 - p) := by
  have key := DecideFirstAttacker_min
    { s with trumpCard := (outcome : Int), trumpSuit := (SuitOf outcome : Int) }
    p hp c hc
    (show (SuitOf c : Int) = ((SuitOf outcome : Nat) : Int) from
      congrArg (fun n : Nat => (n : Int)) hct)
    (fun d hd hdt => hmin d hd (Nat.cast_inj.mp hdt))
  constructor
  · have hatt : (ApplyChanceAction s outcome).attacker = (DecideFirstAttacker { s with trumpCard := (outcome : Int), trumpSuit := (SuitOf outcome : Int) }).attacker := by
      unfold ApplyChanceAction
      rw [if_neg hdeal]
    have hdef : (ApplyChanceAction s outcome).defender = (DecideFirstAttacker { s with trumpCard := (outcome : Int), trumpSuit := (SuitOf outcome : Int) }).defender := by
      unfold ApplyChanceAction
      rw [if_neg hdeal]
    rw [hatt, hdef]
    exact key
  · have hatt : (ApplyChanceActionWT s outcome).attacker = (DecideFirstAttacker { s with trumpCard := (outcome : Int), trumpSuit := (SuitOf outcome : Int) }).attacker := by
      unfold ApplyChanceActionWT
      rw [if_neg hdeal, ← hout]
    have hdef : (ApplyChanceActionWT s outcome).defender = (DecideFirstAttacker { s with trumpCard := (outcome : Int), trumpSuit := (SuitOf outcome : Int) }).defender := by
      unfold ApplyChanceActionWT
      rw [if_neg hdeal, ← hout]
    rw [hatt, hdef]
    exact key

/-- Witness for C5: player 1 holds the only trump-suited card (28, suit 3)
when trump 35 (suit 3) is revealed, so player 1 attacks. -/
def minTrumpState : DurakState :=
  { InitFields (List.range kNumCards) with
      cardsDealt := 12, deckPos := 12,
      hand0 := [0, 2, 4, 6, 8, 10], hand1 := [1, 3, 5, 7, 9, 28] }

theorem first_attacker_min_trump_witness :
    ((ApplyChanceAction minTrumpState 35).attacker = 1 ∧
      (ApplyChanceAction minTrumpState 35).defender = 0) ∧
    ((ApplyChanceActionWT minTrumpState 35).attacker = 1 ∧
      (ApplyChanceActionWT minTrumpState 35).defender = 0) :=
  first_attacker_min_trump minTrumpState 35 1 (Or.inr rfl) (by decide) (by decide)
    28 (by decide) (by decide) (by decide)

/-!  C7 - availability of FINISH_ATTACK in the transfer variant. -/

theorem handOf_lt_of_Inv (s : DurakState) (hI : Inv s) (q x : Nat)
    (hx : x ∈ handOf s q) : x < kNumCards := by
  unfold handOf at hx
  by_cases hq : q = 0
  · rw [if_pos hq] at hx
    exact hands_lt_of_Inv s hI x (Or.inl hx)
  · rw [if_neg hq] at hx
    exact hands_lt_of_Inv s hI x (Or.inr hx)

theorem CheckGameOver_lastAction (s : DurakState) :
    (CheckGameOver s).lastAction = s.lastAction := by
  unfold CheckGameOver
  split
  · rfl
  · split
    · split
      · rfl
      · exact (RefillLoop_frame _ s).2.2.2.2.2.2.2.2.2.1
    · rfl

/-- The FINISH_ATTACK membership test of the transfer variant's
`LegalActions` in an attacking phase of a state satisfying the
conservation invariant. -/
theorem finishAttack_mem_iff (s : DurakState) (hI : Inv s)
    (hgo : ¬ (s.gameOver = true))
    (hph : s.phase = RoundPhase.kAttack ∨ s.phase = RoundPhase.kAdditional) :
    kExtraActionFinishAttack ∈ LegalActionsWT s ↔
      s.tableCards ≠ [] ∧ s.lastAction ≠ (kExtraActionTransfer : Int) := by
  have hch : ¬ IsChanceNode s := by
    intro h
    have h2 : s.phase = RoundPhase.kChance := h
    rcases hph with h1 | h1 <;> rw [h1] at h2 <;> exact RoundPhase.noConfusion h2
  have hcur : currentTurnPlayer s = s.attacker := by
    unfold currentTurnPlayer
    rw [if_pos hph]
  simp only [LegalActionsWT]
  rw [if_neg hgo, if_neg hch,
    if_pos (show (s.phase = RoundPhase.kAttack ∨
      s.phase = RoundPhase.kAdditional) ∧ currentTurnPlayer s = s.attacker from
      ⟨hph, hcur⟩),
    List.mem_insertionSort]
  constructor
  · intro hmem
    rcases List.mem_append.mp hmem with hA | hB
    · exfalso
      have h37 : kExtraActionFinishAttack ∈ handOf s (currentTurnPlayer s) := by
        by_cases ht : s.tableCards = []
        · rw [if_pos ht] at hA
          exact hA
        · rw [if_neg ht] at hA
          by_cases hcap : s.tableCards.length < kCardsPerPlayer ∧
              handOf s s.defender ≠ []
          · rw [if_pos hcap] at hA
            exact (List.mem_filter.mp hA).1
          · rw [if_neg hcap] at hA
            exact absurd hA (List.not_mem_nil _)
      exact absurd (handOf_lt_of_Inv s hI _ _ h37) (by decide)
    · by_cases hcond : s.tableCards ≠ [] ∧ s.lastAction ≠ (kExtraActionTransfer : Int)
      · exact hcond
      · rw [if_neg hcond] at hB
        exact absurd hB (List.not_mem_nil _)
  · intro hcond
    apply List.mem_append.mpr
    right
    rw [if_pos hcond]
    exact List.mem_singleton.mpr rfl

/-- C7: in every reachable non-terminal state of the transfer variant in
phase Attack or Additional (the spec's phase model; terminal states are
phase Terminal there), FINISH_ATTACK (37) is legal exactly when the table
is non-empty and the immediately preceding applied action — which
`last_action_` always records — was not TRANSFER (39); and FINISH_ATTACK
is never legal in the state reached by applying a legal TRANSFER. -/
theorem finish_attack_iff (deck : List Nat)
    (hperm : deck.Perm (List.range kNumCards)) (s : DurakState)
    (hreach : ReachableFromWT deck s) :
    (s.gameOver = false →
      s.phase = RoundPhase.kAttack ∨ s.phase = RoundPhase.kAdditional →
      (kExtraActionFinishAttack ∈ LegalActionsWT s ↔
        s.tableCards ≠ [] ∧ s.lastAction ≠ (kExtraActionTransfer : Int))) ∧
    (kExtraActionTransfer ∈ LegalActionsWT s →
      kExtraActionFinishAttack ∉
        LegalActionsWT (DoApplyActionWT s kExtraActionTransfer)) := by
  obtain ⟨acts, hplay⟩ := hreach
  have hI := Inv_playLegalWT acts _ s (Inv_initWT deck hperm) hplay
  constructor
  · intro hgo hph
    exact finishAttack_mem_iff s hI
      (by rw [hgo]; exact fun h => Bool.noConfusion h) hph
  · intro h39mem
    have hgo : ¬ (s.gameOver = true) := by
      intro hg
      rw [LegalActionsWT, if_pos hg] at h39mem
      exact absurd h39mem (List.not_mem_nil _)
    have h36 : kNumCards = 36 := rfl
    have h12 : kCardsPerPlayer * kNumPlayers = 12 := rfl
    have hph39 : s.phase = RoundPhase.kDefense := by
      by_cases hch : IsChanceNode s
      · exfalso
        simp only [LegalActionsWT] at h39mem
        rw [if_neg hgo, if_pos hch] at h39mem
        unfold chanceOutcomeActions at h39mem
        obtain ⟨hpd, hle⟩ := hI.2.2 hch
        have hpos : s.deckPos < s.deck.length := by
          have h1 : s.deck.length = kNumCards := hI.2.1
          omega
        by_cases hd : s.cardsDealt < kCardsPerPlayer * kNumPlayers
        · rw [if_pos hd] at h39mem
          have h39 := List.mem_singleton.mp h39mem
          have hmem2 : s.deck.getD s.deckPos 0 ∈ s.deck.drop s.deckPos := by
            rw [drop_deal s.deck s.deckPos hpos]
            exact List.mem_cons_self _ _
          have hlt := drop_lt_of_Inv s hI _ hmem2
          rw [← h39] at hlt
          exact absurd hlt (by decide)
        · rw [if_neg hd] at h39mem
          by_cases htc : s.trumpCard < 0
          · rw [if_pos htc] at h39mem
            have h39 := List.mem_singleton.mp h39mem
            have hlt := drop_lt_of_Inv s hI _ (getLastD_mem_drop s.deck s.deckPos hpos)
            rw [← h39] at hlt
            exact absurd hlt (by decide)
          · rw [if_neg htc] at h39mem
            exact absurd h39mem (List.not_mem_nil _)
      · simp only [LegalActionsWT] at h39mem
        rw [if_neg hgo, if_neg hch] at h39mem
        by_cases hattcond : (s.phase = RoundPhase.kAttack ∨
            s.phase = RoundPhase.kAdditional) ∧ currentTurnPlayer s = s.attacker
        · exfalso
          rw [if_pos hattcond, List.mem_insertionSort] at h39mem
          rcases List.mem_append.mp h39mem with hA | hB
          · have h39h : kExtraActionTransfer ∈ handOf s (currentTurnPlayer s) := by
              by_cases ht : s.tableCards = []
              · rw [if_pos ht] at hA
                exact hA
              · rw [if_neg ht] at hA
                by_cases hcap : s.tableCards.length < kCardsPerPlayer ∧
                    handOf s s.defender ≠ []
                · rw [if_pos hcap] at hA
                  exact (List.mem_filter.mp hA).1
                · rw [if_neg hcap] at hA
                  exact absurd hA (List.not_mem_nil _)
            exact absurd (handOf_lt_of_Inv s hI _ _ h39h) (by decide)
          · by_cases hcond : s.tableCards ≠ [] ∧
                s.lastAction ≠ (kExtraActionTransfer : Int)
            · rw [if_pos hcond] at hB
              exact absurd (List.mem_singleton.mp hB) (by decide)
            · rw [if_neg hcond] at hB
              exact absurd hB (List.not_mem_nil _)
        · rw [if_neg hattcond] at h39mem
          by_cases hdefcond : s.phase = RoundPhase.kDefense ∧
              currentTurnPlayer s = s.defender
          · exact hdefcond.1
          · exfalso
            rw [if_neg hdefcond, List.mem_insertionSort] at h39mem
            exact absurd h39mem (List.not_mem_nil _)
    have hch0 : ¬ IsChanceNode { s with lastAction := (kExtraActionTransfer : Int) } := by
      intro h
      have h2 : s.phase = RoundPhase.kChance := h
      rw [hph39] at h2
      exact RoundPhase.noConfusion h2
    have hs39 : DoApplyActionWT s kExtraActionTransfer =
        CheckGameOver (DefenderTransfers
          { s with lastAction := (kExtraActionTransfer : Int) }) := by
      simp only [DoApplyActionWT]
      rw [if_neg hch0, if_neg hgo, if_pos trivial]
    have hI39 : Inv (DoApplyActionWT s kExtraActionTransfer) :=
      Inv_DoApplyActionWT s _ hI h39mem
    by_cases hgo2 : (DoApplyActionWT s kExtraActionTransfer).gameOver = true
    · rw [LegalActionsWT, if_pos hgo2]
      exact List.not_mem_nil _
    · have hla : (DoApplyActionWT s kExtraActionTransfer).lastAction =
          (kExtraActionTransfer : Int) := by
        rw [hs39, CheckGameOver_lastAction]
        rfl
      have hph2 : (DoApplyActionWT s kExtraActionTransfer).phase =
          RoundPhase.kAdditional := by
        rw [hs39, CheckGameOver_phase]
        rfl
      intro hmem37
      exact ((finishAttack_mem_iff _ hI39 hgo2 (Or.inr hph2)).mp hmem37).2 hla

/-!  Concrete traces over the identity permutation used by witnesses and
counterexamples.  With deck 0..35 the thirteen forced chance outcomes are
cards 0..11 (dealt alternately) and the reveal of bottom card 35; player 0
holds no trump (suit 3) card and neither does player 1, so player 0
attacks first. -/

def idDeck : List Nat := List.range kNumCards

def dealActs : List Nat := [0, 1, 2, 3, 4, 5, 6, 7, 8, 9, 10, 11, 35]

/-- The actions reaching the position right after attacker 0 opens with
card 0: table `[(0, none)]`, phase Attack, attacker to move. -/
def postAttackActs : List Nat := dealActs ++ [0]

def postAttackState : DurakState :=
  (playLegalWT (DurakWithTransfersStateInit idDeck 0) postAttackActs).getD
    (InitFields [])

/-- Witness for C7: at `postAttackState` the table is non-empty and the
last action was not TRANSFER, so FINISH_ATTACK is legal. -/
theorem finish_attack_iff_witness :
    kExtraActionFinishAttack ∈ LegalActionsWT postAttackState :=
  ((finish_attack_iff idDeck (List.Perm.refl _) postAttackState
      ⟨postAttackActs, by decide⟩).1 (by decide) (by decide)).mpr
    ⟨by decide, by decide⟩

/-- C2 counterexample: `postAttackState` is reachable, non-terminal and
non-chance; card 2 is in the attacker's hand but not in the legal-action
set (its rank matches nothing on the table), yet `DoApplyAction` places it
on the table - the state changes. -/
theorem invalid_action_mutates_cex :
    playLegalWT (DurakWithTransfersStateInit idDeck 0) postAttackActs =
      some postAttackState ∧
    postAttackState.gameOver = false ∧
    ¬ IsChanceNode postAttackState ∧
    2 ∈ handOf postAttackState (currentTurnPlayer postAttackState) ∧
    2 ∉ LegalActionsWT postAttackState ∧
    DoApplyActionWT postAttackState 2 ≠ postAttackState := by
  decide

/-- A full greedy game over the identity deck: attacker 0 opens each round
with one card and finishes, defender 1 always takes; the deck drains one
card per round through the refills, and after it is exhausted attacker 0
sheds the hand.  Playing the final card 35 empties hand 0 with the deck
exhausted, ending the game with the table still holding that card. -/
def termActs : List Nat :=
  dealActs ++
  [0, 37, 36, 2, 37, 36, 4, 37, 36, 6, 37, 36, 8, 37, 36, 10, 37, 36,
   12, 37, 36, 13, 37, 36, 14, 37, 36, 15, 37, 36, 16, 37, 36, 17, 37, 36,
   18, 37, 36, 19, 37, 36, 20, 37, 36, 21, 37, 36, 22, 37, 36, 23, 37, 36,
   24, 37, 36, 25, 37, 36, 26, 37, 36, 27, 37, 36, 28, 37, 36, 29, 37, 36,
   30, 37, 36, 31, 37, 36, 32, 37, 36, 33, 37, 36, 34, 37, 36, 35]

def termState : DurakState :=
  (playLegalWT (DurakWithTransfersStateInit idDeck 0) termActs).getD
    (InitFields [])

set_option maxRecDepth 10000 in
/-- C3 counterexample: `termState` is a reachable terminal state with the
deck exhausted, player 0's hand empty and player 1's hand non-empty, yet
`Returns` is `(+1, -1)`, not the claimed `(-1, +1)`: the code scores the
card-holding player as the loser. -/
theorem scenario_e_returns_cex :
    playLegalWT (DurakWithTransfersStateInit idDeck 0) termActs =
      some termState ∧
    termState.gameOver = true ∧
    termState.deck.length ≤ termState.deckPos ∧
    termState.hand0 = [] ∧ termState.hand1 ≠ [] ∧
    Returns termState = (1, -1) ∧ Returns termState ≠ (-1, 1) := by
  decide

end Durak
